import Mathlib

/-!
Shallow embedding of the memex desktop storage/search core
(`apps/desktop/src/db.ts`, `apps/desktop/src/dbInsert.ts`).

Text is modelled as `List Char`.  SQLite's `LOWER` only folds ASCII, which
coincides with `Char.toLower` on ASCII input; the FTS5 tokenizer and the
query regex `[\p{L}\p{N}]+` are modelled by maximal runs of alphanumeric
characters (`Char.isAlphanum`), lowered.
-/

namespace Memex

abbrev Str := List Char

/-- ASCII lowering, the semantics of SQLite `LOWER` (and of the
JavaScript `toLowerCase` on ASCII text). -/
def lowerStr (s : Str) : Str := s.map Char.toLower

/-- A character that belongs to a token: the query side uses the regex
class `[\p{L}\p{N}]+`, the FTS5 `unicode61` tokenizer uses letters and
digits as well. -/
def isTokenChar (c : Char) : Bool := c.isAlphanum

/-- One left-to-right pass splitting a string into maximal runs of token
characters; `cur` holds the reversed run in progress. -/
def tokensAux : Str → Str → List Str
  | cur, [] => if cur = [] then [] else [cur.reverse]
  | cur, c :: rest =>
    if isTokenChar c then
      tokensAux (c :: cur) rest
    else if cur = [] then
      tokensAux [] rest
    else
      cur.reverse :: tokensAux [] rest

/-- Split a string into its maximal runs of token characters. -/
def tokens (s : Str) : List Str := tokensAux [] s

/-- Strip the trailing `*` markers a user may have typed
(`term.replace(/\*+$/g, "")` in `normalizeQuery`). -/
def stripTrailingStars (t : Str) : Str :=
  (t.reverse.dropWhile (fun c => c = '*')).reverse

/-- `normalizeQuery` from `db.ts`: lower-case the raw query, split it into
alphanumeric tokens, strip trailing `*`s, and turn every token into a
prefix term (the code appends `*` and joins with spaces; we keep the list
of prefix terms, the empty string corresponds to the empty list). -/
def normalizeQuery (rawQuery : Str) : List Str :=
  (tokens (lowerStr rawQuery)).map stripTrailingStars

/-- Non-overlapping left-to-right occurrence count of `q0 :: qr` in a
string (the number of occurrences SQLite `REPLACE` removes), with a
structural fuel bounding the scan length. -/
def countOccGo (q0 : Char) (qr : Str) : Nat → Str → Nat
  | 0, _ => 0
  | _, [] => 0
  | fuel + 1, c :: rest =>
    if (q0 :: qr).isPrefixOf (c :: rest) then
      countOccGo q0 qr fuel (rest.drop qr.length) + 1
    else
      countOccGo q0 qr fuel rest

/-- Occurrence count of `q` in `s`:
`(LENGTH(s) - LENGTH(REPLACE(s, q, ''))) / NULLIF(LENGTH(q), 0)` from the
SQL, which counts non-overlapping occurrences left to right (`0` when `q`
is empty, matching the `NULLIF` guard that yields `NULL`, summed as 0). -/
def countOcc (q s : Str) : Nat :=
  match q with
  | [] => 0
  | q0 :: qr => countOccGo q0 qr s.length s

/-- SQLite `REPLACE(s, q0::qr, '')`: delete non-overlapping occurrences
left to right. -/
def sqlReplaceEmpty (q0 : Char) (qr : Str) : Str → Str
  | [] => []
  | c :: rest =>
    if (q0 :: qr).isPrefixOf (c :: rest) then
      sqlReplaceEmpty q0 qr (rest.drop qr.length)
    else
      c :: sqlReplaceEmpty q0 qr rest
termination_by s => s.length
decreasing_by
  · simp only [List.length_drop, List.length_cons]
    omega
  · simp only [List.length_cons]
    omega

/-- JavaScript `String.trim` (both ends, whitespace). -/
def strTrim (s : Str) : Str :=
  ((s.dropWhile Char.isWhitespace).reverse.dropWhile Char.isWhitespace).reverse

/-! ## Data model

The three stored tables of `db.ts` (`conversations`, `messages`,
`messages_fts`) and the canonical import records of `@memex/core`
(`ParsedConversation`, `ParsedMessage`).  Timestamps are epoch
milliseconds (`Int`); `conversations.title` is the only nullable column
the code branches on (`COALESCE(c.title, ...)`, `conv.title ?? ""`), so it
is an `Option Str`. -/

/-- A row of the `conversations` table. -/
structure ConvRow where
  id : Str
  source : Str
  title : Option Str
  created_at : Int
  updated_at : Int
  message_count : Int
deriving DecidableEq, Repr

/-- A row of the `messages` table. -/
structure MsgRow where
  id : Str
  conversation_id : Str
  sender : Str
  content : Str
  created_at : Int
deriving DecidableEq, Repr

/-- A row of the `messages_fts` FTS5 table: two indexed text columns and
two UNINDEXED join columns. -/
structure FtsRow where
  content : Str
  title : Str
  conversation_id : Str
  message_id : Str
deriving DecidableEq, Repr

/-- The visible database state: the three tables, each a list of rows in
storage order. -/
structure Store where
  conversations : List ConvRow
  messages : List MsgRow
  messages_fts : List FtsRow
deriving DecidableEq, Repr

/-- The freshly created database (after `initDatabase` on a new file). -/
def emptyStore : Store := ⟨[], [], []⟩

/-- `ParsedMessage` from `@memex/core` types. -/
structure ParsedMessage where
  id : Str
  conversationId : Str
  sender : Str
  content : Str
  createdAt : Int
deriving DecidableEq, Repr

/-- `ParsedConversation` from `@memex/core` types (the `title ?? ""`
guard in `dbInsert.ts` treats the title as possibly absent). -/
structure ParsedConversation where
  id : Str
  externalId : Str
  source : Str
  title : Option Str
  createdAt : Int
  updatedAt : Int
  messageCount : Int
  messages : List ParsedMessage
deriving DecidableEq, Repr

/-! ## Import writer (`dbInsert.ts`)

`INSERT OR REPLACE` into a table with a primary key deletes the
conflicting row and appends the new one; `upsert` below is that
semantics on a list of rows keyed by `key`. -/

section Upsert

variable {α : Type} (key : α → Str)

/-- SQLite `INSERT OR REPLACE` on a list of rows with primary key
`key`: drop any row with the same key, append the new row. -/
def upsert (l : List α) (r : α) : List α :=
  l.filter (fun x => key x ≠ key r) ++ [r]

/-- A sequence of `INSERT OR REPLACE` statements. -/
def upsertAll (l : List α) (rs : List α) : List α :=
  rs.foldl (upsert key) l

end Upsert

/-- The `conversations` row written for a parsed conversation
(`INSERT OR REPLACE INTO conversations ...`). -/
def convRowOf (c : ParsedConversation) : ConvRow :=
  ⟨c.id, c.source, c.title, c.createdAt, c.updatedAt, c.messageCount⟩

/-- The `messages` row written for a parsed message
(`INSERT OR REPLACE INTO messages ...`). -/
def msgRowOf (m : ParsedMessage) : MsgRow :=
  ⟨m.id, m.conversationId, m.sender, m.content, m.createdAt⟩

/-- The `messages_fts` row written for a parsed message: content, the
parent conversation's title (`conv.title ?? ""`), and the join columns
(`msg.conversationId`, `msg.id`). -/
def ftsRowOf (c : ParsedConversation) (m : ParsedMessage) : FtsRow :=
  ⟨m.content, c.title.getD [], m.conversationId, m.id⟩

/-- Effect on the store of the per-message statements inside the import
loop: upsert the message row, append a fresh FTS row. -/
def insertMsgStep (c : ParsedConversation) (s : Store) (m : ParsedMessage) : Store :=
  { s with
    messages := upsert (·.id) s.messages (msgRowOf m),
    messages_fts := s.messages_fts ++ [ftsRowOf c m] }

/-- Effect on the store of one conversation inside the import loop:
upsert the conversation row, delete every FTS row of that
`conversation_id`, then insert each message and its fresh FTS row. -/
def stepConv (s : Store) (c : ParsedConversation) : Store :=
  c.messages.foldl (insertMsgStep c)
    { s with
      conversations := upsert (·.id) s.conversations (convRowOf c),
      messages_fts := s.messages_fts.filter (fun f => f.conversation_id ≠ c.id) }

/-- The state written by a successful `runImportTransaction` (the whole
batch inside one committed transaction). -/
def insertBatchStore (s : Store) (bs : List ParsedConversation) : Store :=
  bs.foldl stepConv s

/-- The effect of one conversation's import on the `messages_fts` table
alone: delete the conversation's rows, then append a fresh row per
message. -/
def ftsConvStep (l : List FtsRow) (c : ParsedConversation) : List FtsRow :=
  l.filter (fun f => f.conversation_id ≠ c.id) ++ c.messages.map (ftsRowOf c)

/-- `clearAllData`'s committed effect: `DELETE FROM messages_fts`,
`DELETE FROM messages`, `DELETE FROM conversations` in one
transaction. -/
def clearAllStore (_s : Store) : Store := emptyStore

/-- The message rows written by a batch, in write order. -/
def batchMsgRows (bs : List ParsedConversation) : List MsgRow :=
  bs.flatMap (fun c => c.messages.map msgRowOf)

/-- The FTS rows written by a batch, in write order. -/
def batchFtsRows (bs : List ParsedConversation) : List FtsRow :=
  bs.flatMap (fun c => c.messages.map (ftsRowOf c))

/-- The search-index mirror invariant: every message row has exactly one
FTS row carrying its `(conversation_id, message_id)` pair, and any such
row's `content` is the message's content while its `title` is the parent
conversation's title (the empty string when the title is null). -/
def mirrorInv (s : Store) : Prop :=
  ∀ m ∈ s.messages,
    (s.messages_fts.filter (fun f =>
      f.conversation_id == m.conversation_id && f.message_id == m.id)).length = 1 ∧
    ∀ f ∈ s.messages_fts,
      f.conversation_id = m.conversation_id → f.message_id = m.id →
        f.content = m.content ∧
          ∃ c ∈ s.conversations, c.id = m.conversation_id ∧ f.title = c.title.getD []

/-- Primary-key well-formedness of the stored tables. -/
def storeWf (s : Store) : Prop :=
  (s.conversations.map (·.id)).Nodup ∧ (s.messages.map (·.id)).Nodup

/-- The full store invariant maintained by the import writer. -/
def FullInv (s : Store) : Prop := storeWf s ∧ mirrorInv s

/-- A canonical input batch: conversation ids unique, message ids unique
across the batch, and every message carries its conversation's id. -/
def wfBatch (bs : List ParsedConversation) : Prop :=
  (bs.map (·.id)).Nodup ∧
    ((bs.flatMap (fun c => c.messages)).map (·.id)).Nodup ∧
    ∀ c ∈ bs, ∀ m ∈ c.messages, m.conversationId = c.id

/-- A batch covers the store when every re-imported conversation carries
all message ids currently stored under that conversation id (re-imports
may change content or titles and add messages, but not drop stored
messages). -/
def covers (s : Store) (bs : List ParsedConversation) : Prop :=
  ∀ c ∈ bs, ∀ m ∈ s.messages, m.conversation_id = c.id →
    m.id ∈ c.messages.map (·.id)

/-- A sequence of import batches, each canonical and covering the store
it is applied to. -/
def goodSeq : Store → List (List ParsedConversation) → Prop
  | _, [] => True
  | s, bs :: rest => wfBatch bs ∧ covers s bs ∧ goodSeq (insertBatchStore s bs) rest

instance (s : Store) : Decidable (mirrorInv s) := by
  unfold mirrorInv
  infer_instance

instance (s : Store) : Decidable (storeWf s) := by
  unfold storeWf
  infer_instance

instance (s : Store) : Decidable (FullInv s) := by
  unfold FullInv
  infer_instance

instance (bs : List ParsedConversation) : Decidable (wfBatch bs) := by
  unfold wfBatch
  infer_instance

instance (s : Store) (bs : List ParsedConversation) : Decidable (covers s bs) := by
  unfold covers
  infer_instance

/-! ## Stats reader (`getStats`) -/

/-- Result shape of `getStats`. -/
structure DbStats where
  conversationCount : Nat
  messageCount : Nat
  indexedMessageCount : Nat
  latestMessageTimestamp : Option Int
deriving DecidableEq, Repr

/-- `getStats` from `db.ts`: the three `COUNT(*)` aggregates and
`MAX(created_at)` over messages (`NULL`, i.e. `none`, on an empty
table). -/
def getStats (s : Store) : DbStats :=
  ⟨s.conversations.length, s.messages.length, s.messages_fts.length,
    (s.messages.map (·.created_at)).max?⟩

/-! ## Transaction semantics with failure injection

A connection holds the committed store and, once `BEGIN IMMEDIATE` ran,
an open transaction snapshot.  Data statements act on the open
transaction; `COMMIT` publishes it, `ROLLBACK` discards it.  A failure
oracle `fail : Nat → Option Str` says whether the statement with a given
index raises (with which error message) — this is the "inject a failure
on any statement" experiment of the spec. -/

/-- A database connection: committed state plus the open transaction's
working state, if a transaction is active. -/
structure Conn where
  committed : Store
  txn : Option Store
deriving DecidableEq, Repr

/-- Apply a data statement to the connection: inside a transaction it
acts on the transaction snapshot, otherwise it autocommits. -/
def execT (conn : Conn) (f : Store → Store) : Conn :=
  match conn.txn with
  | some t => { conn with txn := some (f t) }
  | none => { committed := f conn.committed, txn := none }

/-- `BEGIN IMMEDIATE`. -/
def beginT (conn : Conn) : Conn := { conn with txn := some conn.committed }

/-- `COMMIT`: publish the transaction state. -/
def commitT (conn : Conn) : Conn :=
  match conn.txn with
  | some t => ⟨t, none⟩
  | none => conn

/-- `ROLLBACK`: discard the transaction state. -/
def rollbackT (conn : Conn) : Conn := ⟨conn.committed, none⟩

/-- The per-message statement pair of `runImportTransaction`
(message upsert, FTS insert), executed with failure injection.  Returns
the connection, next statement index and running message total, or the
connection at the point of failure together with the raised message. -/
def runMsgsT (fail : Nat → Option Str) (c : ParsedConversation) :
    List ParsedMessage → Conn → Nat → Nat → (Conn × Nat × Nat) ⊕ (Conn × Str)
  | [], conn, idx, total => .inl (conn, idx, total)
  | m :: rest, conn, idx, total =>
    match fail idx with
    | some e => .inr (conn, e)
    | none =>
      let conn1 := execT conn (fun st =>
        { st with messages := upsert (·.id) st.messages (msgRowOf m) })
      match fail (idx + 1) with
      | some e => .inr (conn1, e)
      | none =>
        let conn2 := execT conn1 (fun st =>
          { st with messages_fts := st.messages_fts ++ [ftsRowOf c m] })
        runMsgsT fail c rest conn2 (idx + 2) (total + 1)

/-- The per-conversation statements of `runImportTransaction`
(conversation upsert, FTS delete, then the message loop). -/
def runConvsT (fail : Nat → Option Str) :
    List ParsedConversation → Conn → Nat → Nat → (Conn × Nat × Nat) ⊕ (Conn × Str)
  | [], conn, idx, total => .inl (conn, idx, total)
  | c :: rest, conn, idx, total =>
    match fail idx with
    | some e => .inr (conn, e)
    | none =>
      let conn1 := execT conn (fun st =>
        { st with conversations := upsert (·.id) st.conversations (convRowOf c) })
      match fail (idx + 1) with
      | some e => .inr (conn1, e)
      | none =>
        let conn2 := execT conn1 (fun st =>
          { st with messages_fts := st.messages_fts.filter (fun f => f.conversation_id ≠ c.id) })
        match runMsgsT fail c c.messages conn2 (idx + 2) total with
        | .inr r => .inr r
        | .inl (conn3, idx3, total3) => runConvsT fail rest conn3 idx3 total3

/-- `runImportTransaction` from `dbInsert.ts` with failure injection:
`BEGIN IMMEDIATE`, the batch loop, then `COMMIT` and the
`(conversations.length, totalMessages)` result — or, on any raised
statement, `ROLLBACK` in the catch block and the error is rethrown. -/
def runImportTransaction (s : Store) (bs : List ParsedConversation)
    (fail : Nat → Option Str) : Conn × Except Str (Nat × Nat) :=
  let conn0 := beginT ⟨s, none⟩
  match runConvsT fail bs conn0 0 0 with
  | .inl (conn, _, total) => (commitT conn, .ok (bs.length, total))
  | .inr (conn, e) => (rollbackT conn, .error e)

/-- The connection component of a transaction-body outcome. -/
def connOf : (Conn × Nat × Nat) ⊕ (Conn × Str) → Conn
  | .inl (conn, _, _) => conn
  | .inr (conn, _) => conn

/-- Total number of messages across an input batch, counting each array
element (the `totalMessages` counter of `runImportTransaction`). -/
def totalMsgCount (bs : List ParsedConversation) : Nat :=
  (bs.map (fun c => c.messages.length)).sum

/-- Number of statements the import transaction body executes for a
batch: two per conversation plus two per message. -/
def convStmtCount (bs : List ParsedConversation) : Nat :=
  (bs.map (fun c => 2 + 2 * c.messages.length)).sum

/-! ## Bounded retry on lock contention

`insertConversations` and `clearAllData` run their transaction up to 6
times, sleeping `500 * attempt` ms before each retry, retrying only when
`isDbLockedError` / `isBusyOrLocked` recognises a transient busy error,
and rethrowing otherwise or on the last attempt. -/

/-- `MAX_IMPORT_RETRIES` (`dbInsert.ts`) and `MAX_CLEAR_RETRIES`
(`db.ts`). -/
def MAX_IMPORT_RETRIES : Nat := 6

/-- `IMPORT_RETRY_DELAY_MS` (`dbInsert.ts`) and `CLEAR_RETRY_DELAY_MS`
(`db.ts`). -/
def IMPORT_RETRY_DELAY_MS : Nat := 500

/-- Substring containment test on our character-list strings
(`String.includes` / an SQL `LIKE '%...%'` with all metacharacters
escaped). -/
def containsStr (s pat : Str) : Bool := decide (pat <:+: s)

/-- `isDbLockedError` from `dbInsert.ts` (identical to `isBusyOrLocked`
in `db.ts`): the message marks a transient lock/busy condition. -/
def isDbLockedError (e : Str) : Bool :=
  containsStr e "database is locked".toList ||
    containsStr e "SQLITE_BUSY".toList ||
      containsStr e "code: 5".toList

/-- The shared retry control flow of `insertConversations` and
`clearAllData`: run `att attempt`, sleeping `delayMs * attempt` before
every attempt after the first; rethrow immediately on a non-busy error
or on the last attempt.  Returns the outcome and the list of sleeps
performed. -/
def retryGo {α : Type} (maxRetries delayMs : Nat) (att : Nat → Except Str α)
    (attempt : Nat) (lastErr : Option Str) (delays : List Nat) :
    Except Str α × List Nat :=
  if _h : attempt < maxRetries then
    let delays1 := if attempt > 0 then delays ++ [delayMs * attempt] else delays
    match att attempt with
    | .ok a => (.ok a, delays1)
    | .error e =>
      if ¬ isDbLockedError e ∨ attempt = maxRetries - 1 then
        (.error e, delays1)
      else
        retryGo maxRetries delayMs att (attempt + 1) (some e) delays1
  else
    (.error (lastErr.getD []), delays)
termination_by maxRetries - attempt

/-- The sleeps performed by `k` consecutive loop iterations starting at
attempt `a`: `delayMs * attempt` before every attempt after the
first. -/
def sleepsFrom (d a k : Nat) : List Nat :=
  match k with
  | 0 => []
  | k + 1 => (if a > 0 then [d * a] else []) ++ sleepsFrom d (a + 1) k

/-- `insertConversations` from `dbInsert.ts`, with one failure oracle per
attempt.  Every failed attempt leaves the committed store untouched
(`importTxn_error_committed` below), so each retry runs the transaction
against the same store `s`. -/
def insertConversations (s : Store) (bs : List ParsedConversation)
    (oracle : Nat → Nat → Option Str) : Except Str (Nat × Nat) × List Nat :=
  retryGo MAX_IMPORT_RETRIES IMPORT_RETRY_DELAY_MS
    (fun i => (runImportTransaction s bs (oracle i)).2) 0 none []

/-- The transaction body of `clearAllData` with failure injection: the
three `DELETE`s between `BEGIN IMMEDIATE` and `COMMIT`, rolled back on a
raised statement. -/
def runClearTransaction (s : Store) (fail : Nat → Option Str) :
    Conn × Except Str Unit :=
  let conn0 := beginT ⟨s, none⟩
  let step : Conn × Nat → (Store → Store) → ((Conn × Nat) ⊕ (Conn × Str)) := fun (conn, idx) f =>
    match fail idx with
    | some e => .inr (conn, e)
    | none => .inl (execT conn f, idx + 1)
  match step (conn0, 0) (fun st => { st with messages_fts := [] }) with
  | .inr (conn, e) => (rollbackT conn, .error e)
  | .inl c1 =>
    match step c1 (fun st => { st with messages := [] }) with
    | .inr (conn, e) => (rollbackT conn, .error e)
    | .inl c2 =>
      match step c2 (fun st => { st with conversations := [] }) with
      | .inr (conn, e) => (rollbackT conn, .error e)
      | .inl (conn, _) => (commitT conn, .ok ())

/-- `clearAllData` from `db.ts`: the same bounded retry loop around the
wipe transaction. -/
def clearAllData (s : Store) (oracle : Nat → Nat → Option Str) :
    Except Str Unit × List Nat :=
  retryGo MAX_IMPORT_RETRIES IMPORT_RETRY_DELAY_MS
    (fun i => (runClearTransaction s (oracle i)).2) 0 none []

/-! ## Search engine (`searchMessages` in `db.ts`)

The FTS5 `MATCH` against the normalized prefix-token string succeeds on a
row when every query token is a prefix of some token of the row's indexed
columns (`content` and `title`).  The `LIKE '%' || escapeLikePattern(..)
|| '%' ESCAPE '\'` title test is literal substring containment, because
`escapeLikePattern` escapes every metacharacter.  `rank` is
`-1.0 * SUM(occurrence_in_message) + MIN(title_boost)`, exact on
integers, so it is modelled as an `Int` with boost `-5`. -/

/-- The five `sort` values of `SearchOptions`. -/
inductive SortKind
  | relevance
  | last_occurrence_desc
  | occurrence_count_desc
  | title_az
  | title_za
deriving DecidableEq, Repr

/-- `SearchOptions` from `db.ts`; absent fields are `none`. -/
structure SearchOptions where
  source : Option Str
  dateFrom : Option Int
  dateTo : Option Int
  lim : Option Int
  offset : Option Int
  sort : Option SortKind
deriving DecidableEq, Repr

/-- Clamp of the caller-supplied limit: `[1, 100]`, default `dflt`. -/
def safeLimitOf (lim : Option Int) (dflt : Nat) : Nat :=
  match lim with
  | some l => (max 1 (min 100 l)).toNat
  | none => dflt

/-- Clamp of the caller-supplied offset: `≥ 0`, default 0. -/
def safeOffsetOf (offset : Option Int) : Nat :=
  match offset with
  | some o => (max 0 o).toNat
  | none => 0

/-- Tokens of an FTS row's two indexed columns. -/
def rowTokens (f : FtsRow) : List Str :=
  tokens (lowerStr f.content) ++ tokens (lowerStr f.title)

/-- `messages_fts MATCH q` for the normalized prefix-token query: every
token must be a prefix of some indexed token of the row. -/
def ftsMatchRow (qtoks : List Str) (f : FtsRow) : Bool :=
  qtoks.all (fun t => (rowTokens f).any (fun rt => t.isPrefixOf rt))

/-- The `title_boost` column: `-5.0` when the lowered title contains the
lowered raw query as a literal substring, else `0.0`. -/
def titleBoostOf (rawLower : Str) (c : ConvRow) : Int :=
  if containsStr (lowerStr (c.title.getD [])) rawLower then -5 else 0

/-- The title boost of the (unique) conversation row with id `k`: `-5`
exactly when its title contains the lowered raw query as a substring,
`0` otherwise (or when no such conversation exists). -/
def convBoost (s : Store) (rawLower : Str) (k : Str) : Int :=
  match s.conversations.find? (fun c => c.id == k) with
  | some c => titleBoostOf rawLower c
  | none => 0

/-- The optional source equality filter (`AND c.source = $n`). -/
def sourceOk (src : Option Str) (c : ConvRow) : Bool :=
  match src with
  | none => true
  | some v => c.source == v

/-- The optional inclusive message date range filter
(`AND COALESCE(m.created_at, 0) >= / <= $n`). -/
def dateOkMsg (dFrom dTo : Option Int) (m : MsgRow) : Bool :=
  (match dFrom with
   | none => true
   | some d => decide (d ≤ m.created_at)) &&
  (match dTo with
   | none => true
   | some d => decide (m.created_at ≤ d))

/-- One row of the `ranked_rows` CTE. -/
structure RankedRow where
  conversation_id : Str
  title : Str
  source : Str
  created_at : Int
  message_created_at : Int
  message_id : Str
  occurrence_in_message : Nat
  title_boost : Int
deriving DecidableEq, Repr

/-- The `ranked_rows` CTE: `messages_fts` rows passing `MATCH`, joined to
their conversation (`c.id = fts.conversation_id`) and message
(`m.id = fts.message_id`) rows, filtered by source and date.
`occurrence_in_message` is the literal non-overlapping occurrence count
of the lowered raw query in the lowered message content. -/
def candidateRows (s : Store) (qtoks : List Str) (rawLower : Str)
    (src : Option Str) (dFrom dTo : Option Int) : List RankedRow :=
  s.messages_fts.flatMap (fun f =>
    if ftsMatchRow qtoks f then
      (s.conversations.filter (fun c => c.id == f.conversation_id)).flatMap (fun c =>
        (s.messages.filter (fun m => m.id == f.message_id)).flatMap (fun m =>
          if sourceOk src c && dateOkMsg dFrom dTo m then
            [⟨c.id, c.title.getD "Untitled".toList, c.source, c.created_at,
              m.created_at, m.id, countOcc rawLower (lowerStr m.content),
              titleBoostOf rawLower c⟩]
          else []))
    else [])

/-- First-occurrence deduplication, the order in which `GROUP BY` keys
are produced in the model. -/
def firstDedup {α : Type} [DecidableEq α] : List α → List α
  | [] => []
  | a :: rest => a :: (firstDedup rest).filter (fun x => x ≠ a)

/-- Fold maximum of a non-empty collection (`MAX` aggregate). -/
def intMaxOf (x : Int) (xs : List Int) : Int := xs.foldl max x

/-- Fold minimum of a non-empty collection (`MIN` aggregate). -/
def intMinOf (x : Int) (xs : List Int) : Int := xs.foldl min x

/-- First row with minimal `message_created_at`
(`ORDER BY message_created_at ASC LIMIT 1`). -/
def argminCreated (best : RankedRow) : List RankedRow → RankedRow
  | [] => best
  | r :: rest =>
    argminCreated (if r.message_created_at < best.message_created_at then r else best) rest

/-- One row of the `grouped` CTE. -/
structure GroupRow where
  conversation_id : Str
  title : Str
  source : Str
  created_at : Int
  last_occurrence : Int
  occurrence_count : Nat
  message_match_count : Nat
  rank : Int
  first_match_message_id : Option Str
deriving DecidableEq, Repr

/-- The aggregates of the `grouped` CTE for one key.  `conversations.id`
is the primary key, so grouping by `conversation_id` alone coincides with
the SQL `GROUP BY conversation_id, title, source, created_at`. -/
def groupFor (rows : List RankedRow) (k : Str) : Option GroupRow :=
  match rows.filter (fun r => r.conversation_id == k) with
  | [] => none
  | r0 :: rest =>
    let occSum := r0.occurrence_in_message + (rest.map (·.occurrence_in_message)).sum
    some ⟨k, r0.title, r0.source, r0.created_at,
      intMaxOf r0.message_created_at (rest.map (·.message_created_at)),
      occSum,
      (firstDedup (r0.message_id :: rest.map (·.message_id))).length,
      -(Int.ofNat occSum) + intMinOf r0.title_boost (rest.map (·.title_boost)),
      some (argminCreated r0 rest).message_id⟩

/-- The full `grouped` result set (before `ORDER BY` / pagination). -/
def searchGroups (s : Store) (qtoks : List Str) (rawLower : Str)
    (src : Option Str) (dFrom dTo : Option Int) : List GroupRow :=
  let cands := candidateRows s qtoks rawLower src dFrom dTo
  (firstDedup (cands.map (·.conversation_id))).filterMap (groupFor cands)

/-- Lexicographic strictly-less on character lists (SQLite text
comparison; used lowered for `COLLATE NOCASE`). -/
def strLtB : Str → Str → Bool
  | [], [] => false
  | [], _ :: _ => true
  | _ :: _, [] => false
  | a :: as, b :: bs => if a < b then true else if b < a then false else strLtB as bs

/-- The `ORDER BY` comparator for each sort option, as a total
"comes-no-later-than" test. -/
def groupLE (sort : SortKind) (a b : GroupRow) : Bool :=
  match sort with
  | .relevance =>
    decide (a.rank < b.rank ∨ (a.rank = b.rank ∧ b.last_occurrence ≤ a.last_occurrence))
  | .last_occurrence_desc =>
    decide (b.last_occurrence < a.last_occurrence ∨
      (b.last_occurrence = a.last_occurrence ∧ a.rank ≤ b.rank))
  | .occurrence_count_desc =>
    decide (b.occurrence_count < a.occurrence_count ∨
      (b.occurrence_count = a.occurrence_count ∧ a.rank ≤ b.rank))
  | .title_az =>
    strLtB (lowerStr a.title) (lowerStr b.title) ||
      (lowerStr a.title == lowerStr b.title && decide (a.rank ≤ b.rank))
  | .title_za =>
    strLtB (lowerStr b.title) (lowerStr a.title) ||
      (lowerStr a.title == lowerStr b.title && decide (a.rank ≤ b.rank))

/-- Insert into a sorted list (insertion sort step). -/
def insertSorted {α : Type} (le : α → α → Bool) (a : α) : List α → List α
  | [] => [a]
  | b :: bs => if le a b then a :: b :: bs else b :: insertSorted le a bs

/-- Deterministic sort realising the SQL `ORDER BY`. -/
def sortByLE {α : Type} (le : α → α → Bool) (l : List α) : List α :=
  l.foldr (insertSorted le) []

/-- One returned search result row. -/
structure SearchResultRow where
  conversation_id : Str
  title : Str
  source : Str
  snippet : Str
  snippets : List Str
  created_at : Int
  last_occurrence : Int
  occurrence_count : Int
  message_match_count : Nat
  rank : Int
  first_match_message_id : Option Str
deriving DecidableEq, Repr

/-- Result shape of `searchMessages`. -/
structure SearchMessagesResult where
  rows : List SearchResultRow
  totalMatches : Nat
  totalOccurrences : Nat
deriving DecidableEq, Repr

/-- The per-result snippet query: matching FTS rows of the conversation
(date-filtered through the joined message, with no source filter), most
recent three by message time, rendered by the FTS5 `snippet` function
(modelled by the abstract `snippetFn`), trimmed, empties discarded. -/
def snippetsFor (snippetFn : FtsRow → Str) (s : Store) (qtoks : List Str)
    (dFrom dTo : Option Int) (cid : Str) : List Str :=
  let rows := s.messages_fts.flatMap (fun f =>
    if ftsMatchRow qtoks f && f.conversation_id == cid then
      (s.messages.filter (fun m => m.id == f.message_id)).flatMap (fun m =>
        if dateOkMsg dFrom dTo m then [(f, m.created_at)] else [])
    else [])
  let recent := (sortByLE (fun a b : FtsRow × Int => decide (b.2 ≤ a.2)) rows).take 3
  (recent.map (fun fm => strTrim (snippetFn fm.1))).filter (fun x => x ≠ [])

/-- Assemble the returned row from a group row and its snippets. -/
def toResultRow (snips : List Str) (g : GroupRow) : SearchResultRow :=
  ⟨g.conversation_id, g.title, g.source, snips.headD [], snips, g.created_at,
    g.last_occurrence, Int.ofNat g.occurrence_count, g.message_match_count,
    g.rank, g.first_match_message_id⟩

/-- `searchMessages` from `db.ts`.  Empty or whitespace-only queries and
queries whose normalization yields no token resolve immediately to the
empty result.  Otherwise: candidate join, grouping, ordering, pagination
(limit clamped to `[1,100]` with default 20, offset clamped to `≥ 0`),
snippets per returned row, `COUNT(DISTINCT conversation_id)` as
`totalMatches` and the summed occurrence count as `totalOccurrences`. -/
def searchMessages (snippetFn : FtsRow → Str) (s : Store) (query : Str)
    (opts : SearchOptions) : SearchMessagesResult :=
  let rawQuery := strTrim query
  if rawQuery = [] then ⟨[], 0, 0⟩
  else
    let qtoks := normalizeQuery rawQuery
    if qtoks = [] then ⟨[], 0, 0⟩
    else
      let safeLimit := safeLimitOf opts.lim 20
      let safeOffset := safeOffsetOf opts.offset
      let sort := opts.sort.getD .last_occurrence_desc
      let rawLower := lowerStr rawQuery
      let cands := candidateRows s qtoks rawLower opts.source opts.dateFrom opts.dateTo
      let sorted := sortByLE (groupLE sort)
        (searchGroups s qtoks rawLower opts.source opts.dateFrom opts.dateTo)
      let page := (sorted.drop safeOffset).take safeLimit
      ⟨page.map (fun g =>
          toResultRow (snippetsFor snippetFn s qtoks opts.dateFrom opts.dateTo g.conversation_id) g),
        (firstDedup (cands.map (·.conversation_id))).length,
        (cands.map (·.occurrence_in_message)).sum⟩

/-! ## Browse reader (`getAllConversationsForSearch`) and the search-page
dispatch -/

/-- Options of `getAllConversationsForSearch`. -/
structure BrowseOptions where
  source : Option Str
  dateFrom : Option Int
  dateTo : Option Int
  lim : Option Int
  offset : Option Int
deriving DecidableEq, Repr

/-- One row of the browse listing. -/
structure ConversationListRow where
  conversation_id : Str
  title : Str
  source : Str
  created_at : Int
  last_message_at : Int
  message_count : Int
deriving DecidableEq, Repr

/-- The `LEFT JOIN` subquery: `MAX(created_at)` of the conversation's
messages, `NULL` when it has none. -/
def lastMsgTime (s : Store) (cid : Str) : Option Int :=
  ((s.messages.filter (fun m => m.conversation_id == cid)).map (·.created_at)).max?

/-- The browse filter: optional source equality, optional inclusive
range on `COALESCE(last_msg_time, 0)`. -/
def browseKeep (s : Store) (opts : BrowseOptions) (c : ConvRow) : Bool :=
  (match opts.source with
   | none => true
   | some src => c.source == src) &&
  (match opts.dateFrom with
   | none => true
   | some d => decide (d ≤ (lastMsgTime s c.id).getD 0)) &&
  (match opts.dateTo with
   | none => true
   | some d => decide ((lastMsgTime s c.id).getD 0 ≤ d))

/-- `getAllConversationsForSearch` from `db.ts`: every conversation
passing the filters, ordered by `last_message_at` descending, paginated
(limit clamped to `[1,100]` with default 50), with the unpaginated match
count. -/
def getAllConversationsForSearch (s : Store) (opts : BrowseOptions) :
    List ConversationListRow × Nat :=
  let safeLimit := safeLimitOf opts.lim 50
  let safeOffset := safeOffsetOf opts.offset
  let matched := s.conversations.filter (browseKeep s opts)
  let rows := matched.map (fun c =>
    (⟨c.id, c.title.getD "Untitled".toList, c.source, c.created_at,
      (lastMsgTime s c.id).getD c.created_at, c.message_count⟩ : ConversationListRow))
  let sorted := sortByLE (fun a b : ConversationListRow =>
    decide (b.last_message_at ≤ a.last_message_at)) rows
  (((sorted.drop safeOffset).take safeLimit), matched.length)

/-- The conversion `SearchPage.tsx` applies to browse rows before showing
them in the search result list: `occurrence_count` carries the message
count, no snippets, rank 0. -/
def convertToSearchRow (r : ConversationListRow) : SearchResultRow :=
  ⟨r.conversation_id, r.title, r.source, [], [], r.created_at,
    r.last_message_at, r.message_count, 0, 0, none⟩

/-- Result shape of the search page's load. -/
structure SearchPageResult where
  results : List SearchResultRow
  totalMatches : Nat
  totalOccurrences : Nat
deriving DecidableEq, Repr

/-- The `runSearch` dispatch of `SearchPage.tsx`: a query with
non-whitespace content goes to `searchMessages`; an empty query loads
`getAllConversationsForSearch` and converts its rows.  `PAGE_SIZE` is
50, offset 0. -/
def searchPageLoad (snippetFn : FtsRow → Str) (s : Store) (query : Str)
    (source : Option Str) (dateFrom dateTo : Option Int)
    (sort : Option SortKind) : SearchPageResult :=
  if (strTrim query).length > 0 then
    let r := searchMessages snippetFn s query
      ⟨source, dateFrom, dateTo, some 50, some 0, sort⟩
    ⟨r.rows, r.totalMatches, r.totalOccurrences⟩
  else
    let r := getAllConversationsForSearch s ⟨source, dateFrom, dateTo, some 50, some 0⟩
    ⟨r.1.map convertToSearchRow, r.2, 0⟩

/-! ## Activity histogram (`getActivityCountByDay`)

Time is modelled with an explicit clock `nowMs` and a fixed local-time
offset `tzOffsetMs` (milliseconds to add to an epoch instant to obtain
local wall-clock time; DST shifts inside the window are not modelled).
`setHours(0,0,0,0)` floors to local midnight; both the SQL
`date(created_at/1000, 'unixepoch')` bucket label and the JavaScript
`toISOString().slice(0,10)` lookup label are UTC calendar days, modelled
as UTC day numbers.  SQLite's integer division truncates toward zero
(`Int.div`), JavaScript's epoch-day computation floors (`Int.fdiv`). -/

/-- UTC calendar day of an epoch instant as JavaScript computes it
(`toISOString` day). -/
def utcDayNum (x : Int) : Int := Int.fdiv x 86400000

/-- UTC calendar day label produced by
`date(created_at / 1000, 'unixepoch')`, via SQLite's truncating integer
division. -/
def sqlDayNum (x : Int) : Int := Int.tdiv (Int.tdiv x 1000) 86400

/-- `getActivityCountByDay` from `db.ts`: clamp `days` to `[1,365]`,
filter messages from the local midnight of the oldest window day, bucket
by UTC calendar day, then read the buckets back oldest-first with
missing days as zero. -/
def getActivityCountByDay (s : Store) (nowMs tzOffsetMs : Int)
    (days : Int) : List Nat :=
  let safeDays : Nat := (max 1 (min 365 days)).toNat
  let oneDayMs : Int := 86400000
  let tl := (nowMs - ((safeDays : Int) - 1) * oneDayMs) + tzOffsetMs
  let startMs := tl - tl.emod oneDayMs - tzOffsetMs
  let qualifying := s.messages.filter (fun m => decide (startMs ≤ m.created_at))
  let table : List (Int × Nat) :=
    (firstDedup (qualifying.map (fun m => sqlDayNum m.created_at))).map (fun d =>
      (d, (qualifying.filter (fun m => sqlDayNum m.created_at == d)).length))
  (List.range safeDays).map (fun (i : Nat) =>
    let t := nowMs - (((safeDays : Int) - 1) - (i : Int)) * oneDayMs
    match table.find? (fun p => p.1 == utcDayNum t) with
    | some p => p.2
    | none => 0)

/-- Local calendar day of an epoch instant under the fixed local-time
offset. -/
def localDayNum (tzOffsetMs x : Int) : Int := Int.fdiv (x + tzOffsetMs) 86400000

/-- The histogram as the specification words it (for comparison with the
code's `getActivityCountByDay`): an array of length exactly `days`,
element `i` counting the messages whose `created_at` falls on the
`(days-1-i)`-th local calendar day before today — index 0 the oldest
day, the last index today, missing days zero. -/
def specActivityByDay (s : Store) (nowMs tzOffsetMs days : Int) : List Nat :=
  (List.range days.toNat).map (fun (i : Nat) =>
    (s.messages.filter (fun m =>
      localDayNum tzOffsetMs m.created_at ==
        localDayNum tzOffsetMs nowMs - (days - 1 - (i : Int)))).length)

/-! ## Concrete sample data

Small concrete batches and stores used by witnesses and
counterexamples. -/

/-- A message of the sample conversation. -/
def sampleMsg1 : ParsedMessage :=
  ⟨"m1".toList, "c1".toList, "human".toList, "I want a salary increase".toList, 100⟩

/-- A second message of the sample conversation. -/
def sampleMsg2 : ParsedMessage :=
  ⟨"m2".toList, "c1".toList, "assistant".toList, "weather today".toList, 200⟩

/-- A sample parsed conversation with two messages. -/
def sampleConv : ParsedConversation :=
  ⟨"c1".toList, "x1".toList, "claude".toList, some "Budget Planning".toList,
    50, 60, 2, [sampleMsg1, sampleMsg2]⟩

/-- The sample conversation re-imported with its second message dropped. -/
def sampleConvShrunk : ParsedConversation :=
  { sampleConv with messages := [sampleMsg1], messageCount := 1 }

/-- The store after importing the sample conversation into an empty
database. -/
def sampleStore : Store := insertBatchStore emptyStore [sampleConv]

/-- A body-only message mentioning the budget. -/
def sampleMsg3 : ParsedMessage :=
  ⟨"m3".toList, "c2".toList, "human".toList,
    "the budget and the budget again: budget".toList, 300⟩

/-- A second sample conversation whose title does not match. -/
def sampleConv2 : ParsedConversation :=
  ⟨"c2".toList, "x2".toList, "claude".toList, some "Chat two".toList,
    70, 80, 1, [sampleMsg3]⟩

/-- The store after importing both sample conversations. -/
def sampleStore2 : Store := insertBatchStore emptyStore [sampleConv, sampleConv2]

/-- Search options with every field absent. -/
def noOpts : SearchOptions := ⟨none, none, none, none, none, none⟩

/-- Browse options with every field absent. -/
def noBrowseOpts : BrowseOptions := ⟨none, none, none, none, none⟩

/-- A concrete stand-in for the FTS5 `snippet` renderer in witnesses:
return the row's content. -/
def contentSnippet : FtsRow → Str := fun f => f.content

/-- A message sent at 02:00 local time under a UTC+3 offset — epoch
82800000 ms, which is 23:00 of the previous UTC day. -/
def tzMsg : ParsedMessage :=
  ⟨"m9".toList, "c9".toList, "human".toList, "late night".toList, 82800000⟩

/-- A conversation holding the late-night message. -/
def tzConv : ParsedConversation :=
  ⟨"c9".toList, "x9".toList, "claude".toList, some "Night".toList,
    82800000, 82800000, 1, [tzMsg]⟩

/-- The store after importing the late-night conversation. -/
def tzStore : Store := insertBatchStore emptyStore [tzConv]

/-- A transient busy error message. -/
def busyStr : Str := "database is locked".toList

/-- A failure oracle whose first two attempts raise a busy error on
their first statement and whose later attempts succeed. -/
def busyOracle (i : Nat) : Nat → Option Str :=
  fun _ => if i < 2 then some busyStr else none

/-! ## Lemmas: tokenization -/

theorem toLower_eq_self_of_not_token (c : Char) (h : isTokenChar c = false) :
    c.toLower = c := by
  unfold isTokenChar at h
  simp only [Char.isAlphanum, Char.isAlpha, Char.isUpper, Bool.or_eq_false_iff,
    Bool.and_eq_false_iff, decide_eq_false_iff_not, not_le] at h
  obtain ⟨⟨hu, _⟩, _⟩ := h
  unfold Char.toLower
  have hn : ¬(c.toNat ≥ 65 ∧ c.toNat ≤ 90) := by
    rintro ⟨h1, h2⟩
    rcases hu with h3 | h3
    · exact h3 h1
    · exact h3 h2
  simp [hn]

theorem tokensAux_nil_of_no_token (s : Str) (h : ∀ c ∈ s, isTokenChar c = false) :
    tokensAux [] s = [] := by
  induction s with
  | nil => rfl
  | cons c rest ih =>
    have hc := h c (List.mem_cons_self c rest)
    rw [tokensAux, if_neg (by simp [hc]), if_pos rfl]
    exact ih (fun d hd => h d (List.mem_cons_of_mem c hd))

theorem tokens_eq_nil_of_no_token (s : Str) (h : ∀ c ∈ s, isTokenChar c = false) :
    tokens s = [] :=
  tokensAux_nil_of_no_token s h

theorem mem_of_mem_strTrim {c : Char} {s : Str} (h : c ∈ strTrim s) : c ∈ s := by
  unfold strTrim at h
  rw [List.mem_reverse] at h
  have h1 := (List.dropWhile_sublist (l := (s.dropWhile Char.isWhitespace).reverse)
    Char.isWhitespace).mem h
  rw [List.mem_reverse] at h1
  exact (List.dropWhile_sublist (l := s) Char.isWhitespace).mem h1

theorem normalizeQuery_eq_nil_of_no_token (q : Str)
    (h : ∀ c ∈ q, isTokenChar c = false) : normalizeQuery q = [] := by
  unfold normalizeQuery
  rw [tokens_eq_nil_of_no_token]
  · rfl
  · intro c hc
    unfold lowerStr at hc
    obtain ⟨d, hd, rfl⟩ := List.mem_map.mp hc
    rw [toLower_eq_self_of_not_token d (h d hd)]
    exact h d hd

/-- C7 — Empty-token query handling: a query string containing no letter
or digit (only punctuation and/or whitespace) makes `searchMessages`
resolve to the empty result — zero rows, `totalMatches = 0`,
`totalOccurrences = 0` — with no error, for every store alike (the store
is never consulted, i.e. no index lookup is performed). -/
theorem searchMessages_empty_token_query (snippetFn : FtsRow → Str) (s : Store)
    (opts : SearchOptions) (q : Str) (h : ∀ c ∈ q, isTokenChar c = false) :
    searchMessages snippetFn s q opts = ⟨[], 0, 0⟩ := by
  unfold searchMessages
  by_cases h1 : strTrim q = []
  · simp [h1]
  · have htok : normalizeQuery (strTrim q) = [] :=
      normalizeQuery_eq_nil_of_no_token _ (fun c hc => h c (mem_of_mem_strTrim hc))
    simp [h1, htok]

/-- Witness for C7 at the punctuation-only query `" ?!,. "` over the
sample store. -/
theorem searchMessages_empty_token_query_witness :
    (∀ c ∈ (" ?!,. ".toList : Str), isTokenChar c = false) ∧
      searchMessages contentSnippet sampleStore " ?!,. ".toList noOpts = ⟨[], 0, 0⟩ :=
  ⟨by decide, searchMessages_empty_token_query contentSnippet sampleStore noOpts
    " ?!,. ".toList (by decide)⟩

/-- C5 counterexample: on a store holding one conversation, the engine
call `searchMessages` with the empty query resolves to the trivially
empty result, while `getAllConversationsForSearch` with the same (empty)
options lists that conversation — so the storage-layer search does NOT
return the browse result set on an empty query. -/
theorem searchMessages_empty_query_counterexample :
    searchMessages contentSnippet sampleStore [] noOpts = ⟨[], 0, 0⟩ ∧
      (getAllConversationsForSearch sampleStore noBrowseOpts).1.length = 1 ∧
      (getAllConversationsForSearch sampleStore noBrowseOpts).2 = 1 := by
  refine ⟨by decide, by decide, by decide⟩

/-- C5 amended — Empty-query browse mode: `searchMessages` itself
resolves an empty or whitespace-only query to the empty result
(`rows = []`, `totalMatches = 0`, `totalOccurrences = 0`) without
touching the store; browse mode lives one layer up: the search page's
load routine answers an empty query with the rows of
`getAllConversationsForSearch` under the same filters (all conversations
ordered by last-message-time descending, `occurrence_count` carrying the
message count, no snippets), under the same pagination contract. -/
theorem searchPage_empty_query_browse (snippetFn : FtsRow → Str) (s : Store)
    (q : Str) (opts : SearchOptions) (src : Option Str) (dFrom dTo : Option Int)
    (sort : Option SortKind) (hq : strTrim q = []) :
    searchMessages snippetFn s q opts = ⟨[], 0, 0⟩ ∧
      searchPageLoad snippetFn s q src dFrom dTo sort =
        ⟨((getAllConversationsForSearch s ⟨src, dFrom, dTo, some 50, some 0⟩).1).map
            convertToSearchRow,
          (getAllConversationsForSearch s ⟨src, dFrom, dTo, some 50, some 0⟩).2, 0⟩ := by
  constructor
  · unfold searchMessages
    simp [hq]
  · unfold searchPageLoad
    simp [hq]

/-! ## Lemmas: the import transaction -/

theorem execT_keeps (conn : Conn) (f : Store → Store)
    (h : conn.txn.isSome = true) :
    (execT conn f).committed = conn.committed ∧
      (execT conn f).txn.isSome = true := by
  obtain ⟨w, tx⟩ := conn
  cases tx with
  | none => simp at h
  | some t => exact ⟨rfl, rfl⟩

theorem runMsgsT_preserves (fail : Nat → Option Str) (c : ParsedConversation)
    (msgs : List ParsedMessage) (conn : Conn) (idx total : Nat)
    (h : conn.txn.isSome = true) :
    (connOf (runMsgsT fail c msgs conn idx total)).committed = conn.committed ∧
      (connOf (runMsgsT fail c msgs conn idx total)).txn.isSome = true := by
  revert h
  induction msgs, conn, idx, total using runMsgsT.induct fail c with
  | case1 conn idx total =>
    intro h
    exact ⟨rfl, h⟩
  | case2 m rest conn idx total e hf =>
    intro h
    simp only [runMsgsT, hf]
    exact ⟨rfl, h⟩
  | case3 m rest conn idx total hf0 e hf1 =>
    intro h
    simp only [runMsgsT, hf0, hf1]
    exact execT_keeps conn _ h
  | case4 m rest conn idx total hf0 conn1 hf1 conn2 ih =>
    intro h
    simp only [runMsgsT, hf0, hf1]
    have k1 := execT_keeps conn
      (fun st => { st with messages := upsert (·.id) st.messages (msgRowOf m) }) h
    have k2 := execT_keeps conn1
      (fun st => { st with messages_fts := st.messages_fts ++ [ftsRowOf c m] }) k1.2
    have k3 := ih k2.2
    exact ⟨k3.1.trans (k2.1.trans k1.1), k3.2⟩

theorem runConvsT_preserves (fail : Nat → Option Str)
    (bs : List ParsedConversation) (conn : Conn) (idx total : Nat)
    (h : conn.txn.isSome = true) :
    (connOf (runConvsT fail bs conn idx total)).committed = conn.committed ∧
      (connOf (runConvsT fail bs conn idx total)).txn.isSome = true := by
  revert h
  induction bs, conn, idx, total using runConvsT.induct fail with
  | case1 conn idx total =>
    intro h
    exact ⟨rfl, h⟩
  | case2 c rest conn idx total e hf =>
    intro h
    simp only [runConvsT, hf]
    exact ⟨rfl, h⟩
  | case3 c rest conn idx total hf0 e hf1 =>
    intro h
    simp only [runConvsT, hf0, hf1]
    exact execT_keeps conn _ h
  | case4 c rest conn idx total hf0 conn1 hf1 conn2 r hr =>
    intro h
    simp only [runConvsT, hf0, hf1, hr]
    have k1 := execT_keeps conn
      (fun st => { st with conversations := upsert (·.id) st.conversations (convRowOf c) }) h
    have k2 := execT_keeps conn1
      (fun st => { st with messages_fts :=
        st.messages_fts.filter (fun f => f.conversation_id ≠ c.id) }) k1.2
    have hm := runMsgsT_preserves fail c c.messages conn2 (idx + 2) total k2.2
    rw [hr] at hm
    exact ⟨hm.1.trans (k2.1.trans k1.1), hm.2⟩
  | case5 c rest conn idx total hf0 conn1 hf1 conn2 conn3 idx3 total3 hr ih =>
    intro h
    simp only [runConvsT, hf0, hf1, hr]
    have k1 := execT_keeps conn
      (fun st => { st with conversations := upsert (·.id) st.conversations (convRowOf c) }) h
    have k2 := execT_keeps conn1
      (fun st => { st with messages_fts :=
        st.messages_fts.filter (fun f => f.conversation_id ≠ c.id) }) k1.2
    have hm := runMsgsT_preserves fail c c.messages conn2 (idx + 2) total k2.2
    rw [hr] at hm
    have k3 := ih hm.2
    exact ⟨k3.1.trans (hm.1.trans (k2.1.trans k1.1)), k3.2⟩

theorem runMsgsT_all_ok (fail : Nat → Option Str) (c : ParsedConversation)
    (hf : ∀ i, fail i = none) (msgs : List ParsedMessage) :
    ∀ (w t : Store) (idx total : Nat),
      runMsgsT fail c msgs ⟨w, some t⟩ idx total =
        .inl (⟨w, some (msgs.foldl (insertMsgStep c) t)⟩,
          idx + 2 * msgs.length, total + msgs.length) := by
  induction msgs with
  | nil =>
    intro w t idx total
    simp [runMsgsT]
  | cons m rest ih =>
    intro w t idx total
    simp only [runMsgsT, hf idx, hf (idx + 1), execT]
    rw [ih]
    simp only [Sum.inl.injEq, Prod.mk.injEq, List.length_cons, List.foldl_cons]
    refine ⟨rfl, by omega, by omega⟩

theorem runConvsT_all_ok (fail : Nat → Option Str)
    (hf : ∀ i, fail i = none) (bs : List ParsedConversation) :
    ∀ (w t : Store) (idx total : Nat),
      runConvsT fail bs ⟨w, some t⟩ idx total =
        .inl (⟨w, some (bs.foldl stepConv t)⟩,
          idx + convStmtCount bs, total + totalMsgCount bs) := by
  induction bs with
  | nil =>
    intro w t idx total
    simp [runConvsT, convStmtCount, totalMsgCount]
  | cons c rest ih =>
    intro w t idx total
    simp only [runConvsT, hf idx, hf (idx + 1), execT]
    rw [runMsgsT_all_ok fail c hf]
    dsimp only
    rw [ih]
    simp only [Sum.inl.injEq, Prod.mk.injEq, List.foldl_cons, convStmtCount,
      totalMsgCount, List.map_cons, List.sum_cons]
    refine ⟨rfl, by omega, by omega⟩

theorem runImportTransaction_all_ok (s : Store) (bs : List ParsedConversation)
    (fail : Nat → Option Str) (hf : ∀ i, fail i = none) :
    runImportTransaction s bs fail =
      (⟨insertBatchStore s bs, none⟩, .ok (bs.length, totalMsgCount bs)) := by
  unfold runImportTransaction
  dsimp only [beginT]
  rw [runConvsT_all_ok fail hf bs s s 0 0]
  dsimp only [commitT]
  rw [insertBatchStore, Nat.zero_add]

/-- C2 — Import atomicity: whenever the import transaction raises at any
statement (any failure oracle that makes `runImportTransaction` return an
error), the whole transaction is rolled back: the connection ends with no
open transaction and the committed store — hence every `getStats`
count — is exactly the pre-import state. -/
theorem runImportTransaction_atomic (s : Store) (bs : List ParsedConversation)
    (fail : Nat → Option Str) (e : Str)
    (h : (runImportTransaction s bs fail).2 = .error e) :
    (runImportTransaction s bs fail).1 = ⟨s, none⟩ ∧
      getStats (runImportTransaction s bs fail).1.committed = getStats s := by
  unfold runImportTransaction at h ⊢
  dsimp only [beginT] at h ⊢
  cases hr : runConvsT fail bs ⟨s, some s⟩ 0 0 with
  | inl r =>
    rw [hr] at h
    exact absurd h (by simp)
  | inr r =>
    obtain ⟨conn, e'⟩ := r
    have hp := runConvsT_preserves fail bs ⟨s, some s⟩ 0 0 rfl
    rw [hr] at hp
    have hc : conn.committed = s := hp.1
    dsimp only
    constructor
    · show rollbackT conn = ⟨s, none⟩
      rw [rollbackT, hc]
    · show getStats (rollbackT conn).committed = getStats s
      rw [rollbackT, hc]

/-- Witness for C2: a two-message batch whose fourth statement (the FTS
insert of the first message) raises; the committed store stays the
(non-empty) sample store. -/
theorem runImportTransaction_atomic_witness :
    (runImportTransaction sampleStore [sampleConvShrunk]
        (fun i => if i = 3 then some "boom".toList else none)).2 =
      .error "boom".toList ∧
    ((runImportTransaction sampleStore [sampleConvShrunk]
        (fun i => if i = 3 then some "boom".toList else none)).1 =
      ⟨sampleStore, none⟩ ∧
      getStats (runImportTransaction sampleStore [sampleConvShrunk]
        (fun i => if i = 3 then some "boom".toList else none)).1.committed =
        getStats sampleStore) :=
  ⟨by rfl,
    runImportTransaction_atomic sampleStore [sampleConvShrunk]
      (fun i => if i = 3 then some "boom".toList else none)
      "boom".toList (by rfl)⟩

/-- C10 — Import result counts: a fail-free `insertConversations` run
resolves on the first attempt with `conversationCount` the length of the
input array and `messageCount` the total number of messages across the
input elements (duplicate ids counted once per element); the committed
store is the batch's upsert effect, whose row counts may differ from the
reported input counts. -/
theorem insertConversations_counts (s : Store) (bs : List ParsedConversation)
    (oracle : Nat → Nat → Option Str) (h : ∀ j, oracle 0 j = none) :
    insertConversations s bs oracle = (.ok (bs.length, totalMsgCount bs), []) ∧
      (runImportTransaction s bs (oracle 0)).1.committed = insertBatchStore s bs := by
  have hrun := runImportTransaction_all_ok s bs (oracle 0) h
  constructor
  · unfold insertConversations
    rw [retryGo, dif_pos (by norm_num [MAX_IMPORT_RETRIES])]
    simp only [gt_iff_lt, lt_self_iff_false, if_false, MAX_IMPORT_RETRIES]
    rw [hrun]
  · rw [hrun]

/-- Witness for C10: importing the same two-message conversation twice in
one batch reports counts 2 and 4 — the input sizes, not the stored row
counts. -/
theorem insertConversations_counts_witness :
    (∀ j : Nat, (fun (_ _ : Nat) => (none : Option Str)) 0 j = none) ∧
      (insertConversations emptyStore [sampleConv, sampleConv] (fun _ _ => none) =
          (.ok ([sampleConv, sampleConv].length, totalMsgCount [sampleConv, sampleConv]), []) ∧
        (runImportTransaction emptyStore [sampleConv, sampleConv]
            ((fun (_ _ : Nat) => (none : Option Str)) 0)).1.committed =
          insertBatchStore emptyStore [sampleConv, sampleConv]) :=
  ⟨fun _ => rfl,
    insertConversations_counts emptyStore [sampleConv, sampleConv]
      (fun _ _ => none) (fun _ => rfl)⟩

/-! ## Lemmas: the retry loop -/

theorem retryGo_stop_ok {α : Type} (maxR d : Nat) (att : Nat → Except Str α)
    (a : Nat) (last : Option Str) (delays : List Nat) (v : α)
    (ha : a < maxR) (hv : att a = .ok v) :
    retryGo maxR d att a last delays =
      (.ok v, delays ++ (if a > 0 then [d * a] else [])) := by
  rw [retryGo, dif_pos ha]
  simp only [hv]
  by_cases h0 : a > 0 <;> simp [h0]

theorem retryGo_stop_error {α : Type} (maxR d : Nat) (att : Nat → Except Str α)
    (a : Nat) (last : Option Str) (delays : List Nat) (e : Str)
    (ha : a < maxR) (he : att a = .error e)
    (hstop : ¬ isDbLockedError e = true ∨ a = maxR - 1) :
    retryGo maxR d att a last delays =
      (.error e, delays ++ (if a > 0 then [d * a] else [])) := by
  rw [retryGo, dif_pos ha]
  simp only [he]
  rw [if_pos hstop]
  by_cases h0 : a > 0 <;> simp [h0]

theorem retryGo_step_busy {α : Type} (maxR d : Nat) (att : Nat → Except Str α)
    (a : Nat) (last : Option Str) (delays : List Nat) (e : Str)
    (ha : a < maxR - 1) (he : att a = .error e)
    (hbusy : isDbLockedError e = true) :
    retryGo maxR d att a last delays =
      retryGo maxR d att (a + 1) (some e)
        (delays ++ (if a > 0 then [d * a] else [])) := by
  conv_lhs => rw [retryGo]
  rw [dif_pos (show a < maxR by omega)]
  simp only [he]
  rw [if_neg (by
    rintro (hn | heq)
    · exact hn hbusy
    · omega)]
  by_cases h0 : a > 0 <;> simp [h0]

theorem retryGo_busy_prefix {α : Type} (maxR d : Nat) (att : Nat → Except Str α)
    (es : Nat → Str) :
    ∀ (k a : Nat) (last : Option Str) (delays : List Nat),
      (∀ i, a ≤ i → i < a + k → att i = .error (es i) ∧ isDbLockedError (es i) = true) →
      a + k < maxR →
      ∃ last2, retryGo maxR d att a last delays =
        retryGo maxR d att (a + k) last2 (delays ++ sleepsFrom d a k) := by
  intro k
  induction k with
  | zero =>
    intro a last delays _ _
    exact ⟨last, by simp [sleepsFrom]⟩
  | succ k ih =>
    intro a last delays hbusy hlt
    have h0 := hbusy a (le_refl a) (by omega)
    rw [retryGo_step_busy maxR d att a last delays (es a) (by omega) h0.1 h0.2]
    obtain ⟨last2, hl⟩ := ih (a + 1)
      (some (es a)) (delays ++ (if a > 0 then [d * a] else []))
      (fun i h1 h2 => hbusy i (by omega) (by omega)) (by omega)
    refine ⟨last2, ?_⟩
    rw [hl, sleepsFrom]
    rw [List.append_assoc, show a + 1 + k = a + (k + 1) from by omega]

theorem sleepsFrom_shift (d : Nat) :
    ∀ (k a : Nat), sleepsFrom d (a + 1) k = (List.range k).map (fun j => d * (a + 1 + j)) := by
  intro k
  induction k with
  | zero => intro a; simp [sleepsFrom]
  | succ k ih =>
    intro a
    rw [sleepsFrom, if_pos (by omega), ih (a + 1)]
    rw [List.range_succ_eq_map, List.map_cons, List.map_map, List.singleton_append]
    congr 1
    apply List.map_congr_left
    intro j _
    show d * (a + 1 + 1 + j) = d * (a + 1 + (j + 1))
    exact congrArg (d * ·) (by omega)

theorem sleeps_zero_linear (d : Nat) :
    ∀ k, sleepsFrom d 0 k ++ (if k > 0 then [d * k] else []) =
      (List.range k).map (fun j => d * (j + 1)) := by
  intro k
  cases k with
  | zero => simp [sleepsFrom]
  | succ k =>
    rw [sleepsFrom, if_neg (by omega), if_pos (by omega)]
    rw [List.nil_append, sleepsFrom_shift d k 0, List.range_succ]
    rw [List.map_append, List.map_cons, List.map_nil]
    congr 1
    apply List.map_congr_left
    intro j _
    exact congrArg (d * ·) (by omega)

/-- The three outcomes of the shared retry policy, for a generic
per-attempt body: after `k` attempts that raised transient busy errors
(`k` within the bound), attempt `k` decides the call — a non-busy error
is surfaced at once, a success is returned, and an error on the final
attempt is surfaced — in each case with the linear backoff trace
`[d*1, …, d*k]`. -/
theorem retryGo_policy {α : Type} (maxR d : Nat) (att : Nat → Except Str α)
    (es : Nat → Str) (k : Nat) (hk : k < maxR)
    (hbusy : ∀ i, i < k → att i = .error (es i) ∧ isDbLockedError (es i) = true) :
    (∀ e, att k = .error e → isDbLockedError e = false →
      retryGo maxR d att 0 none [] =
        (.error e, (List.range k).map (fun j => d * (j + 1)))) ∧
    (∀ v, att k = .ok v →
      retryGo maxR d att 0 none [] =
        (.ok v, (List.range k).map (fun j => d * (j + 1)))) ∧
    (∀ e, att k = .error e → k = maxR - 1 →
      retryGo maxR d att 0 none [] =
        (.error e, (List.range k).map (fun j => d * (j + 1)))) := by
  obtain ⟨last2, hpre⟩ := retryGo_busy_prefix maxR d att es k 0 none []
    (fun i h1 h2 => hbusy i (by omega)) (by omega)
  rw [Nat.zero_add] at hpre
  refine ⟨?_, ?_, ?_⟩
  · intro e he hnb
    rw [hpre, retryGo_stop_error maxR d att k last2 _ e hk he (Or.inl (by simp [hnb]))]
    rw [List.nil_append, sleeps_zero_linear]
  · intro v hv
    rw [hpre, retryGo_stop_ok maxR d att k last2 _ v hk hv]
    rw [List.nil_append, sleeps_zero_linear]
  · intro e he hlast
    rw [hpre, retryGo_stop_error maxR d att k last2 _ e hk he (Or.inr hlast)]
    rw [List.nil_append, sleeps_zero_linear]

/-- C8 — Bounded retry on lock contention: `insertConversations` and
`clearAllData` rerun their whole transaction only while the failure is a
transient lock/busy error, for at most `MAX_IMPORT_RETRIES`/
`MAX_CLEAR_RETRIES` (= 6) attempts and with a backoff sleep of
`500 * attempt` ms before each retry (linear in the attempt number).
After `k` busy-failed attempts, attempt `k` decides the call: a non-busy
error is surfaced immediately without further retry, a success is
returned, and an error on the final attempt is surfaced to the caller —
always with the linear backoff trace `[500*1, …, 500*k]`. -/
theorem insert_clear_bounded_retry (s : Store) (bs : List ParsedConversation)
    (oracle oracleC : Nat → Nat → Option Str) (k : Nat) (es esC : Nat → Str)
    (hk : k < MAX_IMPORT_RETRIES)
    (hbusy : ∀ i, i < k →
      (runImportTransaction s bs (oracle i)).2 = .error (es i) ∧
        isDbLockedError (es i) = true)
    (hbusyC : ∀ i, i < k →
      (runClearTransaction s (oracleC i)).2 = .error (esC i) ∧
        isDbLockedError (esC i) = true) :
    ((∀ e, (runImportTransaction s bs (oracle k)).2 = .error e →
        isDbLockedError e = false →
        insertConversations s bs oracle =
          (.error e, (List.range k).map (fun j => IMPORT_RETRY_DELAY_MS * (j + 1)))) ∧
      (∀ v, (runImportTransaction s bs (oracle k)).2 = .ok v →
        insertConversations s bs oracle =
          (.ok v, (List.range k).map (fun j => IMPORT_RETRY_DELAY_MS * (j + 1)))) ∧
      (∀ e, (runImportTransaction s bs (oracle k)).2 = .error e →
        k = MAX_IMPORT_RETRIES - 1 →
        insertConversations s bs oracle =
          (.error e, (List.range k).map (fun j => IMPORT_RETRY_DELAY_MS * (j + 1))))) ∧
    ((∀ e, (runClearTransaction s (oracleC k)).2 = .error e →
        isDbLockedError e = false →
        clearAllData s oracleC =
          (.error e, (List.range k).map (fun j => IMPORT_RETRY_DELAY_MS * (j + 1)))) ∧
      (∀ v, (runClearTransaction s (oracleC k)).2 = .ok v →
        clearAllData s oracleC =
          (.ok v, (List.range k).map (fun j => IMPORT_RETRY_DELAY_MS * (j + 1)))) ∧
      (∀ e, (runClearTransaction s (oracleC k)).2 = .error e →
        k = MAX_IMPORT_RETRIES - 1 →
        clearAllData s oracleC =
          (.error e, (List.range k).map (fun j => IMPORT_RETRY_DELAY_MS * (j + 1))))) := by
  have h1 := retryGo_policy MAX_IMPORT_RETRIES IMPORT_RETRY_DELAY_MS
    (fun i => (runImportTransaction s bs (oracle i)).2) es k hk hbusy
  have h2 := retryGo_policy MAX_IMPORT_RETRIES IMPORT_RETRY_DELAY_MS
    (fun i => (runClearTransaction s (oracleC i)).2) esC k hk hbusyC
  exact ⟨h1, h2⟩

/-- Witness for C8: two attempts hit a busy error, the oracle's later
attempts succeed; the hypotheses are discharged at `k = 2`. -/
theorem insert_clear_bounded_retry_witness :
    (2 < MAX_IMPORT_RETRIES) ∧
    (∀ i, i < 2 →
      (runImportTransaction sampleStore [sampleConv] (busyOracle i)).2 =
          .error busyStr ∧ isDbLockedError busyStr = true) ∧
    (∀ i, i < 2 →
      (runClearTransaction sampleStore (busyOracle i)).2 =
          .error busyStr ∧ isDbLockedError busyStr = true) ∧
    (((∀ e, (runImportTransaction sampleStore [sampleConv] (busyOracle 2)).2 = .error e →
        isDbLockedError e = false →
        insertConversations sampleStore [sampleConv] busyOracle =
          (.error e, (List.range 2).map (fun j => IMPORT_RETRY_DELAY_MS * (j + 1)))) ∧
      (∀ v, (runImportTransaction sampleStore [sampleConv] (busyOracle 2)).2 = .ok v →
        insertConversations sampleStore [sampleConv] busyOracle =
          (.ok v, (List.range 2).map (fun j => IMPORT_RETRY_DELAY_MS * (j + 1)))) ∧
      (∀ e, (runImportTransaction sampleStore [sampleConv] (busyOracle 2)).2 = .error e →
        2 = MAX_IMPORT_RETRIES - 1 →
        insertConversations sampleStore [sampleConv] busyOracle =
          (.error e, (List.range 2).map (fun j => IMPORT_RETRY_DELAY_MS * (j + 1))))) ∧
    ((∀ e, (runClearTransaction sampleStore (busyOracle 2)).2 = .error e →
        isDbLockedError e = false →
        clearAllData sampleStore busyOracle =
          (.error e, (List.range 2).map (fun j => IMPORT_RETRY_DELAY_MS * (j + 1)))) ∧
      (∀ v, (runClearTransaction sampleStore (busyOracle 2)).2 = .ok v →
        clearAllData sampleStore busyOracle =
          (.ok v, (List.range 2).map (fun j => IMPORT_RETRY_DELAY_MS * (j + 1)))) ∧
      (∀ e, (runClearTransaction sampleStore (busyOracle 2)).2 = .error e →
        2 = MAX_IMPORT_RETRIES - 1 →
        clearAllData sampleStore busyOracle =
          (.error e, (List.range 2).map (fun j => IMPORT_RETRY_DELAY_MS * (j + 1)))))) := by
  have hb : ∀ i, i < 2 →
      (runImportTransaction sampleStore [sampleConv] (busyOracle i)).2 =
          .error busyStr ∧ isDbLockedError busyStr = true := by
    intro i hi
    interval_cases i <;> exact ⟨by rfl, by decide⟩
  have hbC : ∀ i, i < 2 →
      (runClearTransaction sampleStore (busyOracle i)).2 =
          .error busyStr ∧ isDbLockedError busyStr = true := by
    intro i hi
    interval_cases i <;> exact ⟨by rfl, by decide⟩
  exact ⟨by norm_num [MAX_IMPORT_RETRIES], hb, hbC,
    insert_clear_bounded_retry sampleStore [sampleConv] busyOracle busyOracle 2
      (fun _ => busyStr) (fun _ => busyStr)
      (by norm_num [MAX_IMPORT_RETRIES]) hb hbC⟩

/-! ## Lemmas: deduplication, sorting and grouping -/

theorem mem_firstDedup {α : Type} [DecidableEq α] (l : List α) (x : α) :
    x ∈ firstDedup l ↔ x ∈ l := by
  induction l with
  | nil => simp [firstDedup]
  | cons a rest ih =>
    rw [firstDedup]
    simp only [List.mem_cons, List.mem_filter, ih, decide_eq_true_eq]
    constructor
    · rintro (rfl | ⟨hx, _⟩)
      · exact Or.inl rfl
      · exact Or.inr hx
    · rintro (rfl | hx)
      · exact Or.inl rfl
      · by_cases hxa : x = a
        · exact Or.inl hxa
        · exact Or.inr ⟨hx, hxa⟩

theorem firstDedup_nodup {α : Type} [DecidableEq α] (l : List α) :
    (firstDedup l).Nodup := by
  induction l with
  | nil => simp [firstDedup]
  | cons a rest ih =>
    rw [firstDedup]
    refine List.nodup_cons.mpr ⟨?_, ih.filter _⟩
    intro hmem
    have := (List.mem_filter.mp hmem).2
    simp at this

theorem groupFor_conversation_id (rows : List RankedRow) (k : Str) (g : GroupRow)
    (h : groupFor rows k = some g) : g.conversation_id = k := by
  unfold groupFor at h
  cases hf : rows.filter (fun r => r.conversation_id == k) with
  | nil => rw [hf] at h; exact absurd h (by simp)
  | cons r0 rest =>
    rw [hf] at h
    cases h
    rfl

theorem groupFor_isSome_of_mem_keys (rows : List RankedRow) (k : Str)
    (h : k ∈ firstDedup (rows.map (·.conversation_id))) :
    (groupFor rows k).isSome = true := by
  rw [mem_firstDedup] at h
  obtain ⟨r, hr, hk⟩ := List.mem_map.mp h
  unfold groupFor
  cases hf : rows.filter (fun r => r.conversation_id == k) with
  | cons r0 rest => simp
  | nil =>
    have hmem : r ∈ rows.filter (fun r => r.conversation_id == k) :=
      List.mem_filter.mpr ⟨hr, by simp [hk]⟩
    rw [hf] at hmem
    cases hmem

theorem map_cid_filterMap_groupFor (rows : List RankedRow) :
    ∀ keys : List Str, (∀ k ∈ keys, (groupFor rows k).isSome = true) →
      ((keys.filterMap (groupFor rows)).map (·.conversation_id)) = keys := by
  intro keys
  induction keys with
  | nil => intro _; rfl
  | cons k rest ih =>
    intro h
    rw [List.filterMap_cons]
    obtain ⟨g, hg⟩ := Option.isSome_iff_exists.mp (h k (List.mem_cons_self k rest))
    rw [hg, List.map_cons, groupFor_conversation_id rows k g hg,
      ih (fun x hx => h x (List.mem_cons_of_mem k hx))]

theorem searchGroups_map_cid (s : Store) (qtoks : List Str) (rawLower : Str)
    (src : Option Str) (dFrom dTo : Option Int) :
    (searchGroups s qtoks rawLower src dFrom dTo).map (·.conversation_id) =
      firstDedup ((candidateRows s qtoks rawLower src dFrom dTo).map (·.conversation_id)) := by
  unfold searchGroups
  exact map_cid_filterMap_groupFor _ _
    (fun k hk => groupFor_isSome_of_mem_keys _ k hk)

theorem insertSorted_perm {α : Type} (le : α → α → Bool) (a : α) (l : List α) :
    (insertSorted le a l).Perm (a :: l) := by
  induction l with
  | nil => exact List.Perm.refl _
  | cons b rest ih =>
    rw [insertSorted]
    by_cases h : le a b
    · rw [if_pos h]
    · rw [if_neg h]
      exact (ih.cons b).trans (List.Perm.swap a b rest)

theorem sortByLE_perm {α : Type} (le : α → α → Bool) (l : List α) :
    (sortByLE le l).Perm l := by
  induction l with
  | nil => exact List.Perm.refl _
  | cons a rest ih =>
    exact (insertSorted_perm le a (sortByLE le rest)).trans (ih.cons a)

theorem searchMessages_eq (snippetFn : FtsRow → Str) (s : Store) (q : Str)
    (opts : SearchOptions) (hraw : strTrim q ≠ [])
    (htok : normalizeQuery (strTrim q) ≠ []) :
    searchMessages snippetFn s q opts =
      ⟨(((sortByLE (groupLE (opts.sort.getD .last_occurrence_desc))
            (searchGroups s (normalizeQuery (strTrim q)) (lowerStr (strTrim q))
              opts.source opts.dateFrom opts.dateTo)).drop
              (safeOffsetOf opts.offset)).take (safeLimitOf opts.lim 20)).map
          (fun g => toResultRow
            (snippetsFor snippetFn s (normalizeQuery (strTrim q))
              opts.dateFrom opts.dateTo g.conversation_id) g),
        (firstDedup ((candidateRows s (normalizeQuery (strTrim q))
          (lowerStr (strTrim q)) opts.source opts.dateFrom opts.dateTo).map
            (·.conversation_id))).length,
        ((candidateRows s (normalizeQuery (strTrim q)) (lowerStr (strTrim q))
          opts.source opts.dateFrom opts.dateTo).map
            (·.occurrence_in_message)).sum⟩ := by
  unfold searchMessages
  dsimp only
  rw [if_neg hraw, if_neg htok]

/-- C6 — Pagination consistency: for a fixed store and a query that
reaches the index, page `(limit 10, offset 0)` followed by page
`(limit 10, offset 10)` is exactly page `(limit 20, offset 0)`; the
conversation ids of that 20-row page are pairwise distinct (no repeats
across the two pages, none skipped); `totalMatches` does not depend on
limit or offset and equals the number of distinct matching conversations
(the length of the grouped result set). -/
theorem search_pagination_consistent (snippetFn : FtsRow → Str) (s : Store)
    (q : Str) (opts : SearchOptions)
    (hraw : strTrim q ≠ []) (htok : normalizeQuery (strTrim q) ≠ []) :
    (searchMessages snippetFn s q { opts with lim := some 10, offset := some 0 }).rows ++
        (searchMessages snippetFn s q { opts with lim := some 10, offset := some 10 }).rows =
      (searchMessages snippetFn s q { opts with lim := some 20, offset := some 0 }).rows ∧
    ((searchMessages snippetFn s q { opts with lim := some 20, offset := some 0 }).rows.map
        (·.conversation_id)).Nodup ∧
    (∀ lim1 off1 lim2 off2 : Option Int,
      (searchMessages snippetFn s q { opts with lim := lim1, offset := off1 }).totalMatches =
        (searchMessages snippetFn s q { opts with lim := lim2, offset := off2 }).totalMatches) ∧
    (searchMessages snippetFn s q opts).totalMatches =
      (searchGroups s (normalizeQuery (strTrim q)) (lowerStr (strTrim q))
        opts.source opts.dateFrom opts.dateTo).length := by
  have e10 := searchMessages_eq snippetFn s q
    { opts with lim := some 10, offset := some 0 } hraw htok
  have e1010 := searchMessages_eq snippetFn s q
    { opts with lim := some 10, offset := some 10 } hraw htok
  have e20 := searchMessages_eq snippetFn s q
    { opts with lim := some 20, offset := some 0 } hraw htok
  have hoff0 : safeOffsetOf (some 0) = 0 := by decide
  have hoff10 : safeOffsetOf (some 10) = 10 := by decide
  have hlim10 : safeLimitOf (some 10) 20 = 10 := by decide
  have hlim20 : safeLimitOf (some 20) 20 = 20 := by decide
  refine ⟨?_, ?_, ?_, ?_⟩
  · rw [e10, e1010, e20]
    dsimp only
    rw [hoff0, hoff10, hlim10, hlim20, List.drop_zero]
    rw [show (20 : Nat) = 10 + 10 from rfl, List.take_add, List.map_append]
  · rw [e20]
    dsimp only
    rw [hoff0, hlim20, List.drop_zero, List.map_map]
    have hcid : ((fun r : SearchResultRow => r.conversation_id) ∘
        (fun g => toResultRow (snippetsFor snippetFn s (normalizeQuery (strTrim q))
          opts.dateFrom opts.dateTo g.conversation_id) g)) =
        fun g : GroupRow => g.conversation_id := rfl
    rw [hcid, List.map_take]
    refine List.Nodup.sublist (List.take_sublist _ _) ?_
    refine (List.Perm.nodup_iff ((sortByLE_perm _ _).map _)).mpr ?_
    rw [searchGroups_map_cid]
    exact firstDedup_nodup _
  · intro lim1 off1 lim2 off2
    rw [searchMessages_eq snippetFn s q { opts with lim := lim1, offset := off1 } hraw htok,
      searchMessages_eq snippetFn s q { opts with lim := lim2, offset := off2 } hraw htok]
  · rw [searchMessages_eq snippetFn s q opts hraw htok]
    dsimp only
    rw [← searchGroups_map_cid, List.length_map]

/-- Witness for C6 at the query `"salary"` over the sample store. -/
theorem search_pagination_consistent_witness :
    (strTrim "salary".toList ≠ [] ∧
      normalizeQuery (strTrim "salary".toList) ≠ []) ∧
    ((searchMessages contentSnippet sampleStore "salary".toList
          { noOpts with lim := some 10, offset := some 0 }).rows ++
        (searchMessages contentSnippet sampleStore "salary".toList
          { noOpts with lim := some 10, offset := some 10 }).rows =
      (searchMessages contentSnippet sampleStore "salary".toList
        { noOpts with lim := some 20, offset := some 0 }).rows ∧
    ((searchMessages contentSnippet sampleStore "salary".toList
        { noOpts with lim := some 20, offset := some 0 }).rows.map
        (·.conversation_id)).Nodup ∧
    (∀ lim1 off1 lim2 off2 : Option Int,
      (searchMessages contentSnippet sampleStore "salary".toList
          { noOpts with lim := lim1, offset := off1 }).totalMatches =
        (searchMessages contentSnippet sampleStore "salary".toList
          { noOpts with lim := lim2, offset := off2 }).totalMatches) ∧
    (searchMessages contentSnippet sampleStore "salary".toList noOpts).totalMatches =
      (searchGroups sampleStore (normalizeQuery (strTrim "salary".toList))
        (lowerStr (strTrim "salary".toList))
        noOpts.source noOpts.dateFrom noOpts.dateTo).length) :=
  ⟨⟨by decide, by decide⟩,
    search_pagination_consistent contentSnippet sampleStore "salary".toList noOpts
      (by decide) (by decide)⟩

/-! ## Lemmas: the activity histogram -/

theorem activity_table_lookup (qualifying : List MsgRow) (d : Int) :
    (match ((firstDedup (qualifying.map (fun m => sqlDayNum m.created_at))).map
        (fun k => (k, (qualifying.filter
          (fun m => sqlDayNum m.created_at == k)).length))).find?
            (fun p => p.1 == d) with
      | some p => p.2
      | none => 0) =
      (qualifying.filter (fun m => sqlDayNum m.created_at == d)).length := by
  cases hf : ((firstDedup (qualifying.map (fun m => sqlDayNum m.created_at))).map
      (fun k => (k, (qualifying.filter
        (fun m => sqlDayNum m.created_at == k)).length))).find?
          (fun p => p.1 == d) with
  | some p =>
    have hpred := List.find?_some hf
    have hmem := List.mem_of_find?_eq_some hf
    obtain ⟨k, hk, rfl⟩ := List.mem_map.mp hmem
    have hkd : k = d := by simpa using hpred
    subst hkd
    rfl
  | none =>
    have hnone := List.find?_eq_none.mp hf
    cases hq : qualifying.filter (fun m => sqlDayNum m.created_at == d) with
    | nil => simp [hq]
    | cons m rest =>
      exfalso
      have hm : m ∈ qualifying.filter (fun m => sqlDayNum m.created_at == d) := by
        rw [hq]; exact List.mem_cons_self m rest
      have hmq := List.mem_filter.mp hm
      have hd : sqlDayNum m.created_at = d := by simpa using hmq.2
      have hdk : d ∈ firstDedup (qualifying.map (fun m => sqlDayNum m.created_at)) := by
        rw [mem_firstDedup]
        exact List.mem_map.mpr ⟨m, hmq.1, hd⟩
      have := hnone _ (List.mem_map.mpr ⟨d, hdk, rfl⟩)
      simp at this

set_option maxRecDepth 4000

/-- C9 counterexample: `getActivityByDay` clamps `days` to `[1, 365]`, so
the returned array does not have length `days` for every input — at
`days = 0` it has length 1 and at `days = 400` it has length 365 — and
its buckets are UTC day labels, not the claimed local calendar days:
under a UTC+3 offset (`tzOffsetMs = 10800000`), with the clock at 04:00
local time and one stored message sent at 02:00 local time of the same
local calendar day (23:00 of the previous UTC day), the code's one-day
histogram is `[0]` — the message's UTC label is yesterday's, so today's
bucket misses it — while bucketing by local calendar days as the claim
words it gives `[1]`. -/
theorem getActivityCountByDay_counterexample :
    ((getActivityCountByDay emptyStore 1000000000 0 0).length = 1 ∧
      (getActivityCountByDay emptyStore 1000000000 0 400).length = 365) ∧
      getActivityCountByDay tzStore 90000000 10800000 1 = [0] ∧
      specActivityByDay tzStore 90000000 10800000 1 = [1] :=
  ⟨⟨by decide, by decide⟩, by decide, by decide⟩

/-- C9 amended — Activity histogram shape: with an explicit clock and a
fixed local-time offset, `getActivityCountByDay` returns an array of
length `clamp(days, 1, 365)`; element `i` counts the messages whose
`created_at` is at or after the local midnight starting the oldest window
day and whose SQLite UTC day label (`date(created_at/1000,'unixepoch')`,
truncating division) equals the JavaScript UTC day label
(`toISOString`, flooring division) of `now - (safeDays-1-i)` days — index
0 the oldest day, the last index today, and days with no messages
reported as zero.  (The two labels coincide for non-negative epoch
timestamps; the window start is local, the bucket labels UTC.) -/
theorem getActivityCountByDay_shape (s : Store) (nowMs tzOffsetMs days : Int) :
    (getActivityCountByDay s nowMs tzOffsetMs days).length =
        (max 1 (min 365 days)).toNat ∧
      (∀ i : Nat, i < (max 1 (min 365 days)).toNat →
        (getActivityCountByDay s nowMs tzOffsetMs days)[i]? =
          some (((s.messages.filter (fun m =>
              decide ((((nowMs - (((max 1 (min 365 days)).toNat : Int) - 1) * 86400000)
                  + tzOffsetMs)
                - ((nowMs - (((max 1 (min 365 days)).toNat : Int) - 1) * 86400000)
                    + tzOffsetMs).emod 86400000 - tzOffsetMs) ≤ m.created_at))).filter
            (fun m => sqlDayNum m.created_at ==
              utcDayNum (nowMs - (((max 1 (min 365 days)).toNat : Int) - 1
                - (i : Int)) * 86400000))).length)) := by
  constructor
  · unfold getActivityCountByDay
    rw [List.length_map, List.length_range]
  · intro i hi
    unfold getActivityCountByDay
    rw [List.getElem?_map, List.getElem?_range hi, Option.map_some']
    dsimp only
    rw [activity_table_lookup]

/-- Witness for the amended C9 over the sample store, two-day window,
reading the newest bucket. -/
theorem getActivityCountByDay_shape_witness :
    (getActivityCountByDay sampleStore 200 0 2).length =
        (max 1 (min 365 (2 : Int))).toNat ∧
      (1 < (max 1 (min 365 (2 : Int))).toNat ∧
        (getActivityCountByDay sampleStore 200 0 2)[1]? =
          some (((sampleStore.messages.filter (fun m =>
              decide ((((200 - (((max 1 (min 365 (2 : Int))).toNat : Int) - 1) * 86400000)
                  + 0)
                - ((200 - (((max 1 (min 365 (2 : Int))).toNat : Int) - 1) * 86400000)
                    + 0).emod 86400000 - 0) ≤ m.created_at))).filter
            (fun m => sqlDayNum m.created_at ==
              utcDayNum (200 - (((max 1 (min 365 (2 : Int))).toNat : Int) - 1
                - ((1 : Nat) : Int)) * 86400000))).length)) :=
  ⟨(getActivityCountByDay_shape sampleStore 200 0 2).1,
    by decide,
    (getActivityCountByDay_shape sampleStore 200 0 2).2 1 (by decide)⟩

/-! ## Lemmas: upsert folds and import idempotence -/

section UpsertLemmas

variable {α : Type} (key : α → Str)

theorem upsertAll_characterize :
    ∀ (rs : List α) (l : List α),
      upsertAll key l rs =
        l.filter (fun x => decide (key x ∉ rs.map key)) ++ upsertAll key [] rs := by
  intro rs
  induction rs with
  | nil =>
    intro l
    simp [upsertAll]
  | cons r rest ih =>
    intro l
    show upsertAll key (upsert key l r) rest = _
    rw [ih (upsert key l r)]
    have htail : upsertAll key [] (r :: rest) = upsertAll key [r] rest := by
      show upsertAll key (upsert key [] r) rest = upsertAll key [r] rest
      rfl
    rw [htail, ih [r]]
    unfold upsert
    rw [List.filter_append, List.filter_filter, ← List.append_assoc]
    congr 2
    apply List.filter_congr
    intro x _
    simp only [List.map_cons, List.mem_cons, not_or, decide_not, Bool.decide_and,
      Bool.decide_or, Bool.not_or]
    exact Bool.and_comm _ _

theorem key_mem_of_mem_upsertAll :
    ∀ (rs l : List α) (x : α), x ∈ upsertAll key l rs →
      key x ∈ l.map key ∨ key x ∈ rs.map key := by
  intro rs
  induction rs with
  | nil =>
    intro l x hx
    exact Or.inl (List.mem_map_of_mem key hx)
  | cons r rest ih =>
    intro l x hx
    rcases ih (upsert key l r) x hx with h | h
    · rcases List.mem_map.mp h with ⟨y, hy, hk⟩
      unfold upsert at hy
      rcases List.mem_append.mp hy with h1 | h1
      · exact Or.inl (hk ▸ List.mem_map_of_mem key (List.mem_filter.mp h1).1)
      · have : y = r := by simpa using h1
        subst this
        exact Or.inr (by simp [← hk])
    · exact Or.inr (by simp [h])

theorem upsertAll_idem (l : List α) (rs : List α) :
    upsertAll key (upsertAll key l rs) rs = upsertAll key l rs := by
  rw [upsertAll_characterize key rs l, upsertAll_characterize key rs
    (l.filter (fun x => decide (key x ∉ rs.map key)) ++ upsertAll key [] rs)]
  rw [List.filter_append, List.filter_filter]
  have h1 : (upsertAll key [] rs).filter (fun x => decide (key x ∉ rs.map key)) = [] := by
    rw [List.filter_eq_nil_iff]
    intro x hx
    have := key_mem_of_mem_upsertAll key rs [] x hx
    simp only [List.map_nil, List.not_mem_nil, false_or] at this
    simp [this]
  have h2 : l.filter (fun x =>
      decide (key x ∉ rs.map key) && decide (key x ∉ rs.map key)) =
      l.filter (fun x => decide (key x ∉ rs.map key)) := by
    apply List.filter_congr
    intro x _
    rw [Bool.and_self]
  rw [h1, h2, List.append_nil]

end UpsertLemmas

theorem ftsFold_characterize :
    ∀ (cs : List ParsedConversation) (l : List FtsRow),
      cs.foldl ftsConvStep l =
        l.filter (fun f => decide (f.conversation_id ∉ cs.map (·.id))) ++
          cs.foldl ftsConvStep [] := by
  intro cs
  induction cs with
  | nil =>
    intro l
    simp
  | cons c rest ih =>
    intro l
    show rest.foldl ftsConvStep (ftsConvStep l c) = _
    rw [ih (ftsConvStep l c)]
    have htail : (c :: rest).foldl ftsConvStep [] =
        rest.foldl ftsConvStep (c.messages.map (ftsRowOf c)) := by
      show rest.foldl ftsConvStep (ftsConvStep [] c) = _
      rfl
    rw [htail, ih (c.messages.map (ftsRowOf c))]
    unfold ftsConvStep
    rw [List.filter_append, List.filter_filter, ← List.append_assoc]
    congr 2
    apply List.filter_congr
    intro f _
    simp only [List.map_cons, List.mem_cons, not_or, decide_not, Bool.decide_and,
      Bool.decide_or, Bool.not_or]
    exact Bool.and_comm _ _

theorem cid_mem_of_mem_ftsFold :
    ∀ (cs : List ParsedConversation)
      (_hwf : ∀ c ∈ cs, ∀ m ∈ c.messages, m.conversationId = c.id)
      (l : List FtsRow) (f : FtsRow), f ∈ cs.foldl ftsConvStep l →
      f.conversation_id ∈ l.map (·.conversation_id) ∨
        f.conversation_id ∈ cs.map (·.id) := by
  intro cs
  induction cs with
  | nil =>
    intro _ l f hf
    exact Or.inl (List.mem_map_of_mem _ hf)
  | cons c rest ih =>
    intro hwf l f hf
    have hwfr : ∀ c' ∈ rest, ∀ m ∈ c'.messages, m.conversationId = c'.id :=
      fun c' hc' => hwf c' (List.mem_cons_of_mem c hc')
    rcases ih hwfr (ftsConvStep l c) f hf with h | h
    · rcases List.mem_map.mp h with ⟨g, hg, hk⟩
      unfold ftsConvStep at hg
      rcases List.mem_append.mp hg with h1 | h1
      · exact Or.inl (hk ▸ List.mem_map_of_mem _ (List.mem_filter.mp h1).1)
      · rcases List.mem_map.mp h1 with ⟨m, hm, hrow⟩
        have : g.conversation_id = c.id := by
          rw [← hrow]
          exact hwf c (List.mem_cons_self c rest) m hm
        rw [← hk, this]
        exact Or.inr (by simp)
    · exact Or.inr (by simp [h])

theorem insertMsgs_fold (c : ParsedConversation) :
    ∀ (msgs : List ParsedMessage) (st : Store),
      msgs.foldl (insertMsgStep c) st =
        { st with
          messages := upsertAll (·.id) st.messages (msgs.map msgRowOf),
          messages_fts := st.messages_fts ++ msgs.map (ftsRowOf c) } := by
  intro msgs
  induction msgs with
  | nil =>
    intro st
    simp [upsertAll]
  | cons m rest ih =>
    intro st
    rw [List.foldl_cons, ih (insertMsgStep c st m)]
    unfold insertMsgStep
    simp only [List.map_cons, List.append_assoc, List.singleton_append]
    rfl

theorem stepConv_eq (s : Store) (c : ParsedConversation) :
    stepConv s c =
      ⟨upsert (·.id) s.conversations (convRowOf c),
        upsertAll (·.id) s.messages (c.messages.map msgRowOf),
        ftsConvStep s.messages_fts c⟩ := by
  unfold stepConv
  rw [insertMsgs_fold]
  rfl

theorem insertBatchStore_eq (bs : List ParsedConversation) :
    ∀ (s : Store),
      insertBatchStore s bs =
        ⟨upsertAll (·.id) s.conversations (bs.map convRowOf),
          upsertAll (·.id) s.messages
            (bs.flatMap (fun c => c.messages.map msgRowOf)),
          bs.foldl ftsConvStep s.messages_fts⟩ := by
  induction bs with
  | nil =>
    intro s
    simp [insertBatchStore, upsertAll]
  | cons c rest ih =>
    intro s
    show insertBatchStore (stepConv s c) rest = _
    rw [ih (stepConv s c), stepConv_eq]
    simp only [List.map_cons, List.flatMap_cons, List.foldl_cons]
    congr 1
    show upsertAll (·.id) (upsertAll (·.id) s.messages (c.messages.map msgRowOf))
        (rest.flatMap (fun c => c.messages.map msgRowOf)) = _
    unfold upsertAll
    rw [← List.foldl_append]

theorem ftsFold_idem (cs : List ParsedConversation) (l : List FtsRow)
    (hwf : ∀ c ∈ cs, ∀ m ∈ c.messages, m.conversationId = c.id) :
    cs.foldl ftsConvStep (cs.foldl ftsConvStep l) = cs.foldl ftsConvStep l := by
  rw [ftsFold_characterize cs l, ftsFold_characterize cs
    (l.filter (fun f => decide (f.conversation_id ∉ cs.map (·.id))) ++
      cs.foldl ftsConvStep [])]
  rw [List.filter_append, List.filter_filter]
  have h1 : (cs.foldl ftsConvStep []).filter
      (fun f => decide (f.conversation_id ∉ cs.map (·.id))) = [] := by
    rw [List.filter_eq_nil_iff]
    intro f hf
    have := cid_mem_of_mem_ftsFold cs hwf [] f hf
    simp only [List.map_nil, List.not_mem_nil, false_or] at this
    simp [this]
  have h2 : l.filter (fun f =>
      decide (f.conversation_id ∉ cs.map (·.id)) &&
        decide (f.conversation_id ∉ cs.map (·.id))) =
      l.filter (fun f => decide (f.conversation_id ∉ cs.map (·.id))) := by
    apply List.filter_congr
    intro f _
    rw [Bool.and_self]
  rw [h1, h2, List.append_nil]

/-- C3 — Idempotent import: for every starting store and every
well-formed batch (each message carries its conversation's id), a second
`insertConversations` run with the same batch leaves the store contents
byte-identical to one run — rows are replaced by primary key, never
duplicated — so every `getStats` count is unchanged by the second run;
equivalently, committing the import transaction twice in succession ends
in the same committed store as committing it once. -/
theorem insertBatch_idempotent (s : Store) (bs : List ParsedConversation)
    (hwf : ∀ c ∈ bs, ∀ m ∈ c.messages, m.conversationId = c.id) :
    insertBatchStore (insertBatchStore s bs) bs = insertBatchStore s bs ∧
      getStats (insertBatchStore (insertBatchStore s bs) bs) =
        getStats (insertBatchStore s bs) ∧
      (∀ fail : Nat → Option Str, (∀ i, fail i = none) →
        (runImportTransaction
            (runImportTransaction s bs fail).1.committed bs fail).1.committed =
          (runImportTransaction s bs fail).1.committed) := by
  have hmain : insertBatchStore (insertBatchStore s bs) bs = insertBatchStore s bs := by
    rw [insertBatchStore_eq bs s]
    rw [insertBatchStore_eq bs]
    dsimp only
    rw [upsertAll_idem, upsertAll_idem, ftsFold_idem bs _ hwf]
  refine ⟨hmain, by rw [hmain], ?_⟩
  intro fail hf
  rw [runImportTransaction_all_ok s bs fail hf]
  dsimp only
  rw [runImportTransaction_all_ok _ bs fail hf]
  exact hmain

/-- Witness for C3: re-importing the sample conversation into the sample
store (which already holds it) changes nothing. -/
theorem insertBatch_idempotent_witness :
    (∀ c ∈ [sampleConv], ∀ m ∈ c.messages, m.conversationId = c.id) ∧
      (insertBatchStore (insertBatchStore emptyStore [sampleConv]) [sampleConv] =
          insertBatchStore emptyStore [sampleConv] ∧
        getStats (insertBatchStore (insertBatchStore emptyStore [sampleConv]) [sampleConv]) =
          getStats (insertBatchStore emptyStore [sampleConv]) ∧
        (∀ fail : Nat → Option Str, (∀ i, fail i = none) →
          (runImportTransaction
              (runImportTransaction emptyStore [sampleConv] fail).1.committed
              [sampleConv] fail).1.committed =
            (runImportTransaction emptyStore [sampleConv] fail).1.committed)) :=
  ⟨by decide, insertBatch_idempotent emptyStore [sampleConv] (by decide)⟩

/-! ## Lemmas: the mirror invariant -/

theorem upsertAll_nil_of_nodup {α : Type} (key : α → Str) :
    ∀ rs : List α, (rs.map key).Nodup → upsertAll key [] rs = rs := by
  intro rs
  induction rs with
  | nil => intro _; rfl
  | cons r rest ih =>
    intro h
    rw [List.map_cons, List.nodup_cons] at h
    show upsertAll key (upsert key [] r) rest = r :: rest
    have h0 : upsert key [] r = [r] := rfl
    rw [h0, upsertAll_characterize key rest [r], ih h.2]
    have hr : [r].filter (fun x => decide (key x ∉ rest.map key)) = [r] := by
      rw [List.filter_cons, if_pos (by simpa using h.1), List.filter_nil]
    rw [hr]
    rfl

theorem ftsFold_disjoint_eq :
    ∀ (bs : List ParsedConversation),
      (∀ c ∈ bs, ∀ m ∈ c.messages, m.conversationId = c.id) →
      (bs.map (·.id)).Nodup →
      ∀ l : List FtsRow, (∀ f ∈ l, f.conversation_id ∉ bs.map (·.id)) →
        bs.foldl ftsConvStep l = l ++ batchFtsRows bs := by
  intro bs
  induction bs with
  | nil =>
    intro _ _ l _
    simp [batchFtsRows]
  | cons c rest ih =>
    intro hwf hnd l hl
    rw [List.map_cons, List.nodup_cons] at hnd
    rw [List.foldl_cons]
    have hstep : ftsConvStep l c = l ++ c.messages.map (ftsRowOf c) := by
      unfold ftsConvStep
      congr 1
      rw [List.filter_eq_self]
      intro f hf
      have := hl f hf
      simp only [List.map_cons, List.mem_cons, not_or] at this
      simp [this.1]
    rw [hstep]
    rw [ih (fun d hd => hwf d (List.mem_cons_of_mem c hd)) hnd.2 _ ?_]
    · rw [List.append_assoc]
      congr 1
    · intro f hf
      rcases List.mem_append.mp hf with h1 | h1
      · have := hl f h1
        simp only [List.map_cons, List.mem_cons, not_or] at this
        exact this.2
      · rcases List.mem_map.mp h1 with ⟨m, hm, rfl⟩
        have : (ftsRowOf c m).conversation_id = c.id :=
          hwf c (List.mem_cons_self c rest) m hm
        rw [this]
        exact hnd.1

theorem batchMsgRows_ids (bs : List ParsedConversation) :
    (batchMsgRows bs).map (·.id) = (bs.flatMap (fun c => c.messages)).map (·.id) := by
  unfold batchMsgRows
  rw [List.map_flatMap, List.map_flatMap]
  simp only [List.map_map]
  rfl

theorem batchFtsRows_mids (bs : List ParsedConversation) :
    (batchFtsRows bs).map (·.message_id) =
      (bs.flatMap (fun c => c.messages)).map (·.id) := by
  unfold batchFtsRows
  rw [List.map_flatMap, List.map_flatMap]
  simp only [List.map_map]
  rfl

theorem length_filter_key_le_one {α : Type} (key : α → Str) (L : List α)
    (hnd : (L.map key).Nodup) (k : Str) :
    (L.filter (fun x => key x == k)).length ≤ 1 := by
  induction L with
  | nil => simp
  | cons b bs ih =>
    rw [List.map_cons, List.nodup_cons] at hnd
    by_cases hb : key b = k
    · rw [List.filter_cons_of_pos (by simp [hb])]
      have hbs : bs.filter (fun x => key x == k) = [] := by
        rw [List.filter_eq_nil_iff]
        intro x hx hxk
        refine hnd.1 ?_
        have : key x = k := by simpa using hxk
        exact hb ▸ this ▸ List.mem_map_of_mem key hx
      rw [hbs]
      simp
    · rw [List.filter_cons_of_neg (by simp [hb])]
      exact ih hnd.2

theorem FullInv_insertBatch (s : Store) (bs : List ParsedConversation)
    (hinv : FullInv s) (hwf : wfBatch bs) (hcov : covers s bs) :
    FullInv (insertBatchStore s bs) := by
  obtain ⟨⟨hcnd, hmnd⟩, hmir⟩ := hinv
  obtain ⟨hbc, hbm, hbwf⟩ := hwf
  have hconvids : (bs.map convRowOf).map (·.id) = bs.map (·.id) := by
    rw [List.map_map]
    rfl
  have hC : upsertAll (·.id) s.conversations (bs.map convRowOf) =
      s.conversations.filter (fun x => decide (x.id ∉ bs.map (·.id))) ++
        bs.map convRowOf := by
    rw [upsertAll_characterize (fun (c : ConvRow) => c.id)
        (bs.map convRowOf) s.conversations,
      upsertAll_nil_of_nodup (fun (c : ConvRow) => c.id) (bs.map convRowOf)
        (by rw [hconvids]; exact hbc), hconvids]
  have hMnodup : ((batchMsgRows bs).map (·.id)).Nodup := by
    rw [batchMsgRows_ids]
    exact hbm
  have hM : upsertAll (·.id) s.messages (batchMsgRows bs) =
      s.messages.filter (fun x =>
        decide (x.id ∉ (bs.flatMap (fun c => c.messages)).map (·.id))) ++
        batchMsgRows bs := by
    rw [upsertAll_characterize (fun (m : MsgRow) => m.id)
        (batchMsgRows bs) s.messages,
      upsertAll_nil_of_nodup (fun (m : MsgRow) => m.id) (batchMsgRows bs)
        hMnodup, batchMsgRows_ids]
  have hF : bs.foldl ftsConvStep s.messages_fts =
      s.messages_fts.filter (fun f => decide (f.conversation_id ∉ bs.map (·.id))) ++
        batchFtsRows bs := by
    rw [ftsFold_characterize bs s.messages_fts,
      ftsFold_disjoint_eq bs hbwf hbc [] (by intro f hf; cases hf),
      List.nil_append]
  rw [insertBatchStore_eq,
    show bs.flatMap (fun c => c.messages.map msgRowOf) = batchMsgRows bs from rfl,
    hC, hM, hF]
  refine ⟨⟨?_, ?_⟩, ?_⟩
  · show ((s.conversations.filter _ ++ bs.map convRowOf).map (·.id)).Nodup
    rw [List.map_append, hconvids, List.nodup_append]
    refine ⟨List.Nodup.sublist ((List.filter_sublist _).map _) hcnd, hbc, ?_⟩
    intro a ha
    rcases List.mem_map.mp ha with ⟨x, hx, rfl⟩
    have h2 := (List.mem_filter.mp hx).2
    simpa using h2
  · show ((s.messages.filter _ ++ batchMsgRows bs).map (·.id)).Nodup
    rw [List.map_append, batchMsgRows_ids, List.nodup_append]
    refine ⟨List.Nodup.sublist ((List.filter_sublist _).map _) hmnd, hbm, ?_⟩
    intro a ha
    rcases List.mem_map.mp ha with ⟨x, hx, rfl⟩
    have h2 := (List.mem_filter.mp hx).2
    simpa using h2
  · intro m' hm'
    rcases List.mem_append.mp hm' with hOld | hNew
    · -- a pre-existing message not touched by the batch
      have hms : m' ∈ s.messages := (List.mem_filter.mp hOld).1
      have hpm : m'.id ∉ (bs.flatMap (fun c => c.messages)).map (·.id) := by
        simpa using (List.mem_filter.mp hOld).2
      have hcidnot : m'.conversation_id ∉ bs.map (·.id) := by
        intro hin
        rcases List.mem_map.mp hin with ⟨c, hc, hcid⟩
        have hcovc := hcov c hc m' hms hcid.symm
        rcases List.mem_map.mp hcovc with ⟨pm, hpmm, hpid⟩
        exact hpm (hpid ▸ List.mem_map_of_mem _ (List.mem_flatMap.mpr ⟨c, hc, hpmm⟩))
      constructor
      · rw [List.filter_append]
        have hright : (batchFtsRows bs).filter (fun f =>
            f.conversation_id == m'.conversation_id && f.message_id == m'.id) = [] := by
          rw [List.filter_eq_nil_iff]
          intro f hf hpf
          rcases List.mem_flatMap.mp hf with ⟨c, hc, hfc⟩
          rcases List.mem_map.mp hfc with ⟨m2, hm2, rfl⟩
          have hcid2 : (ftsRowOf c m2).conversation_id = c.id := hbwf c hc m2 hm2
          have hpc : (ftsRowOf c m2).conversation_id = m'.conversation_id := by
            have := Bool.and_eq_true_iff.mp hpf
            simpa using this.1
          exact hcidnot (hpc ▸ hcid2 ▸ List.mem_map_of_mem _ hc)
        rw [hright, List.append_nil, List.filter_filter]
        have hcomb : s.messages_fts.filter (fun f =>
            (f.conversation_id == m'.conversation_id && f.message_id == m'.id) &&
              decide (f.conversation_id ∉ bs.map (·.id))) =
            s.messages_fts.filter (fun f =>
              f.conversation_id == m'.conversation_id && f.message_id == m'.id) := by
          apply List.filter_congr
          intro f _
          by_cases hp : (f.conversation_id == m'.conversation_id &&
              f.message_id == m'.id) = true
          · rw [hp, Bool.true_and]
            have hfc : f.conversation_id = m'.conversation_id := by
              have := Bool.and_eq_true_iff.mp hp
              simpa using this.1
            simp [hfc, hcidnot]
          · rw [Bool.eq_false_iff.mpr hp, Bool.false_and]
        rw [hcomb]
        exact (hmir m' hms).1
      · intro f hf hfc hfm
        rcases List.mem_append.mp hf with h1f | h2f
        · have hf0 := List.mem_filter.mp h1f
          have hcm := (hmir m' hms).2 f hf0.1 hfc hfm
          refine ⟨hcm.1, ?_⟩
          obtain ⟨c, hc, hcid, htitle⟩ := hcm.2
          refine ⟨c, List.mem_append.mpr (Or.inl (List.mem_filter.mpr
            ⟨hc, ?_⟩)), hcid, htitle⟩
          simp only [decide_eq_true_eq, hcid]
          exact hcidnot
        · exfalso
          rcases List.mem_flatMap.mp h2f with ⟨c, hc, hfc2⟩
          rcases List.mem_map.mp hfc2 with ⟨m2, hm2, rfl⟩
          have hcid2 : (ftsRowOf c m2).conversation_id = c.id := hbwf c hc m2 hm2
          exact hcidnot (hfc ▸ hcid2 ▸ List.mem_map_of_mem _ hc)
    · -- a message written by the batch
      rcases List.mem_flatMap.mp hNew with ⟨c, hc, hmc⟩
      rcases List.mem_map.mp hmc with ⟨pm, hpm, rfl⟩
      have hcid : (msgRowOf pm).conversation_id = c.id := hbwf c hc pm hpm
      constructor
      · rw [List.filter_append]
        have hleft : (s.messages_fts.filter (fun f =>
            decide (f.conversation_id ∉ bs.map (·.id)))).filter (fun f =>
            f.conversation_id == (msgRowOf pm).conversation_id &&
              f.message_id == (msgRowOf pm).id) = [] := by
          rw [List.filter_eq_nil_iff]
          intro f hf hpf
          have hnid : f.conversation_id ∉ bs.map (·.id) := by
            simpa using (List.mem_filter.mp hf).2
          have hfc : f.conversation_id = (msgRowOf pm).conversation_id := by
            have := Bool.and_eq_true_iff.mp hpf
            simpa using this.1
          exact hnid (hfc ▸ hcid ▸ List.mem_map_of_mem _ hc)
        rw [hleft, List.nil_append]
        have hle : ((batchFtsRows bs).filter (fun f =>
            f.conversation_id == (msgRowOf pm).conversation_id &&
              f.message_id == (msgRowOf pm).id)).length ≤ 1 := by
          refine le_trans (List.Sublist.length_le
            (List.monotone_filter_right _ ?_))
            (length_filter_key_le_one (·.message_id) (batchFtsRows bs)
              (by rw [batchFtsRows_mids]; exact hbm) (msgRowOf pm).id)
          intro f hpf
          exact (Bool.and_eq_true_iff.mp hpf).2
        have hge : 0 < ((batchFtsRows bs).filter (fun f =>
            f.conversation_id == (msgRowOf pm).conversation_id &&
              f.message_id == (msgRowOf pm).id)).length := by
          refine List.length_pos_of_mem (a := ftsRowOf c pm) ?_
          refine List.mem_filter.mpr ⟨List.mem_flatMap.mpr
            ⟨c, hc, List.mem_map_of_mem _ hpm⟩, ?_⟩
          have h1 : (ftsRowOf c pm).conversation_id = (msgRowOf pm).conversation_id := rfl
          have h2 : (ftsRowOf c pm).message_id = (msgRowOf pm).id := rfl
          simp [h1, h2]
        omega
      · intro f hf hfc hfm
        rcases List.mem_append.mp hf with h1f | h2f
        · exfalso
          have hnid : f.conversation_id ∉ bs.map (·.id) := by
            simpa using (List.mem_filter.mp h1f).2
          exact hnid (hfc ▸ hcid ▸ List.mem_map_of_mem _ hc)
        · rcases List.mem_flatMap.mp h2f with ⟨d, hd, hfd⟩
          rcases List.mem_map.mp hfd with ⟨m2, hm2, rfl⟩
          have hdid : (ftsRowOf d m2).conversation_id = d.id := hbwf d hd m2 hm2
          have hdc : d = c := by
            refine List.inj_on_of_nodup_map hbc hd hc ?_
            show d.id = c.id
            rw [← hdid, hfc, hcid]
          subst hdc
          have hm2pm : m2 = pm := by
            refine List.inj_on_of_nodup_map hbm
              (List.mem_flatMap.mpr ⟨d, hd, hm2⟩)
              (List.mem_flatMap.mpr ⟨d, hd, hpm⟩) ?_
            exact hfm
          subst hm2pm
          refine ⟨rfl, convRowOf d, List.mem_append.mpr (Or.inr
            (List.mem_map_of_mem _ hd)), ?_, rfl⟩
          exact hcid.symm

/-- C1 counterexample: the invariant does not survive arbitrary re-imports
with changed messages. Importing `sampleConv` (two messages) and then
re-importing the same conversation id with only its first message leaves
the second message row stored with no FTS row at all: `INSERT OR REPLACE`
replaces by primary key but never deletes the old message rows, while the
FTS slice of the conversation is wiped and rebuilt from the new batch. -/
theorem mirror_invariant_reimport_counterexample :
    wfBatch [sampleConv] ∧ wfBatch [sampleConvShrunk] ∧
      ¬ mirrorInv (insertBatchStore (insertBatchStore emptyStore [sampleConv])
        [sampleConvShrunk]) :=
  ⟨by decide, by decide, by decide⟩

/-- C1 (amended) — Search-index mirror invariant: the empty store satisfies
the invariant; a fail-free `insertConversations` transaction over a
canonical batch (unique conversation ids, batch-wide unique message ids,
each message carrying its conversation's id) that covers the stored
messages of the conversations it re-imports preserves it on the committed
store, so every message row keeps exactly one FTS row with matching
conversation id, content, and parent title (empty when the title is null);
`clearAllData` empties all three tables, trivially restoring the
invariant; and the invariant holds after any sequence of such canonical,
covering imports. Without the covering hypothesis the invariant can break
(see the re-import counterexample): old message rows are never deleted,
only replaced by primary key, while the conversation's FTS slice is wiped
and rebuilt. -/
theorem search_index_mirror_invariant :
    FullInv emptyStore ∧
    (∀ (s : Store) (bs : List ParsedConversation) (fail : Nat → Option Str),
      (∀ i, fail i = none) → FullInv s → wfBatch bs → covers s bs →
      FullInv (runImportTransaction s bs fail).1.committed) ∧
    (∀ s : Store, clearAllStore s = emptyStore ∧ FullInv (clearAllStore s)) ∧
    (∀ (s : Store) (bss : List (List ParsedConversation)),
      FullInv s → goodSeq s bss → FullInv (bss.foldl insertBatchStore s)) := by
  refine ⟨by decide, ?_, fun s => ⟨rfl, show FullInv emptyStore by decide⟩, ?_⟩
  · intro s bs fail hnone hinv hwf hcov
    rw [runImportTransaction_all_ok s bs fail hnone]
    exact FullInv_insertBatch s bs hinv hwf hcov
  · intro s bss
    induction bss generalizing s with
    | nil => intro hinv _; exact hinv
    | cons bs rest ih =>
      intro hinv hseq
      obtain ⟨hwf, hcov, hrest⟩ := hseq
      exact ih (insertBatchStore s bs) (FullInv_insertBatch s bs hinv hwf hcov) hrest

/-- Witness for C1: a concrete fail-free import of `sampleConv` into the
empty store, with the invariant checked on the committed store. -/
theorem search_index_mirror_invariant_witness :
    FullInv (runImportTransaction emptyStore [sampleConv]
      (fun _ => (none : Option Str))).1.committed :=
  search_index_mirror_invariant.2.1 emptyStore [sampleConv]
    (fun _ => (none : Option Str)) (fun _ => rfl) (by decide) (by decide) (by decide)

/-! ## Lemmas: ranking -/

theorem find?_eq_some_of_nodup_key {α : Type} (key : α → Str) (L : List α)
    (hnd : (L.map key).Nodup) (a : α) (ha : a ∈ L) (k : Str) (hk : key a = k) :
    L.find? (fun x => key x == k) = some a := by
  induction L with
  | nil => cases ha
  | cons b bs ih =>
    rw [List.map_cons, List.nodup_cons] at hnd
    rcases List.mem_cons.mp ha with rfl | ha'
    · rw [List.find?_cons_of_pos _ (by simp [hk])]
    · have hbk : key b ≠ k := by
        intro hbk
        exact hnd.1 (hbk ▸ hk ▸ List.mem_map_of_mem key ha')
      rw [List.find?_cons_of_neg _ (by simp [hbk])]
      exact ih hnd.2 ha'

theorem mem_candidateRows {s : Store} {qtoks : List Str} {rawLower : Str}
    {src : Option Str} {dFrom dTo : Option Int} {r : RankedRow}
    (hr : r ∈ candidateRows s qtoks rawLower src dFrom dTo) :
    ∃ f ∈ s.messages_fts, ftsMatchRow qtoks f = true ∧
      ∃ c ∈ s.conversations, c.id = f.conversation_id ∧
        ∃ m ∈ s.messages, m.id = f.message_id ∧
          sourceOk src c = true ∧ dateOkMsg dFrom dTo m = true ∧
          r = ⟨c.id, c.title.getD "Untitled".toList, c.source, c.created_at,
            m.created_at, m.id, countOcc rawLower (lowerStr m.content),
            titleBoostOf rawLower c⟩ := by
  unfold candidateRows at hr
  rw [List.mem_flatMap] at hr
  obtain ⟨f, hf, hr⟩ := hr
  by_cases hm : ftsMatchRow qtoks f
  · rw [if_pos hm] at hr
    rw [List.mem_flatMap] at hr
    obtain ⟨c, hc, hr⟩ := hr
    rw [List.mem_flatMap] at hr
    obtain ⟨m, hmm, hr⟩ := hr
    have hc' := List.mem_filter.mp hc
    have hmm' := List.mem_filter.mp hmm
    by_cases hok : sourceOk src c && dateOkMsg dFrom dTo m
    · rw [if_pos hok] at hr
      have hok' := Bool.and_eq_true_iff.mp hok
      refine ⟨f, hf, hm, c, hc'.1, by simpa using hc'.2, m, hmm'.1,
        by simpa using hmm'.2, hok'.1, hok'.2, ?_⟩
      simpa using hr
    · rw [if_neg hok] at hr
      cases hr
  · rw [if_neg hm] at hr
    cases hr

theorem intMinOf_const (v : Int) (xs : List Int) (h : ∀ x ∈ xs, x = v) :
    intMinOf v xs = v := by
  induction xs with
  | nil => rfl
  | cons x rest ih =>
    have hx := h x (List.mem_cons_self x rest)
    show intMinOf (min v x) rest = v
    rw [hx, min_self]
    exact ih (fun y hy => h y (List.mem_cons_of_mem x hy))

theorem groupFor_fields (rows : List RankedRow) (k : Str) (g : GroupRow)
    (h : groupFor rows k = some g) :
    ∃ r0 rest, rows.filter (fun r => r.conversation_id == k) = r0 :: rest ∧
      g.conversation_id = k ∧
      g.rank = -(Int.ofNat (r0.occurrence_in_message +
          (rest.map (·.occurrence_in_message)).sum)) +
        intMinOf r0.title_boost (rest.map (·.title_boost)) := by
  unfold groupFor at h
  cases hf : rows.filter (fun r => r.conversation_id == k) with
  | nil => rw [hf] at h; cases h
  | cons r0 rest =>
    rw [hf] at h
    cases h
    exact ⟨r0, rest, rfl, rfl, rfl⟩

theorem candidate_boost_eq (s : Store) (qtoks : List Str) (rawLower : Str)
    (src : Option Str) (dFrom dTo : Option Int)
    (hconvs : (s.conversations.map (·.id)).Nodup)
    (r : RankedRow) (hr : r ∈ candidateRows s qtoks rawLower src dFrom dTo) :
    r.title_boost = convBoost s rawLower r.conversation_id := by
  obtain ⟨f, hf, hm, c, hc, hcid, m, hmm, hmid, hsrc, hdate, rfl⟩ := mem_candidateRows hr
  unfold convBoost
  rw [find?_eq_some_of_nodup_key (·.id) s.conversations hconvs c hc c.id rfl]

theorem searchGroups_rank (s : Store) (qtoks : List Str) (rawLower : Str)
    (src : Option Str) (dFrom dTo : Option Int)
    (hconvs : (s.conversations.map (·.id)).Nodup) :
    ∀ g ∈ searchGroups s qtoks rawLower src dFrom dTo,
      g.rank = -(Int.ofNat ((((candidateRows s qtoks rawLower src dFrom dTo).filter
          (fun r => r.conversation_id == g.conversation_id)).map
            (·.occurrence_in_message)).sum)) +
        convBoost s rawLower g.conversation_id := by
  intro g hg
  unfold searchGroups at hg
  rw [List.mem_filterMap] at hg
  obtain ⟨k, hk, hgf⟩ := hg
  obtain ⟨r0, rest, hfilt, hcid, hrank⟩ := groupFor_fields _ k g hgf
  have hall : ∀ r ∈ r0 :: rest, r.title_boost = convBoost s rawLower k := by
    intro r hr
    rw [← hfilt] at hr
    have hr' := List.mem_filter.mp hr
    have hk' : r.conversation_id = k := by simpa using hr'.2
    rw [← hk']
    exact candidate_boost_eq s qtoks rawLower src dFrom dTo hconvs r hr'.1
  rw [hcid, hfilt, hrank, List.map_cons, List.sum_cons]
  congr 1
  rw [hall r0 (List.mem_cons_self r0 rest)]
  apply intMinOf_const
  intro x hx
  obtain ⟨r, hr, rfl⟩ := List.mem_map.mp hx
  exact hall r (List.mem_cons_of_mem r0 hr)

theorem flatMap_map_sublist {A B C : Type} (L : List A) (g : A → List B)
    (u : B → C) (w : A → C) (h : ∀ a ∈ L, ((g a).map u).Sublist [w a]) :
    ((L.flatMap g).map u).Sublist (L.map w) := by
  induction L with
  | nil => simp
  | cons a rest ih =>
    rw [List.flatMap_cons, List.map_append, List.map_cons]
    have h1 := h a (List.mem_cons_self a rest)
    have h2 := ih (fun x hx => h x (List.mem_cons_of_mem a hx))
    exact List.Sublist.append h1 h2

theorem candidate_body_mids (s : Store) (qtoks : List Str) (rawLower : Str)
    (src : Option Str) (dFrom dTo : Option Int)
    (hconvs : (s.conversations.map (·.id)).Nodup)
    (hmsgs : (s.messages.map (·.id)).Nodup) (f : FtsRow) :
    ((if ftsMatchRow qtoks f then
        (s.conversations.filter (fun c => c.id == f.conversation_id)).flatMap (fun c =>
          (s.messages.filter (fun m => m.id == f.message_id)).flatMap (fun m =>
            if sourceOk src c && dateOkMsg dFrom dTo m then
              [(⟨c.id, c.title.getD "Untitled".toList, c.source, c.created_at,
                m.created_at, m.id, countOcc rawLower (lowerStr m.content),
                titleBoostOf rawLower c⟩ : RankedRow)]
            else []))
      else []).map (·.message_id)).Sublist [f.message_id] := by
  by_cases hm : ftsMatchRow qtoks f
  · rw [if_pos hm]
    cases hc : s.conversations.filter (fun c => c.id == f.conversation_id) with
    | nil => simp
    | cons c cs =>
      have hlen := length_filter_key_le_one (·.id) s.conversations hconvs f.conversation_id
      rw [hc] at hlen
      have hcs : cs = [] := by
        cases cs with
        | nil => rfl
        | cons _ _ => simp at hlen
      subst hcs
      rw [List.flatMap_cons, List.flatMap_nil, List.append_nil]
      cases hmm : s.messages.filter (fun m => m.id == f.message_id) with
      | nil => simp
      | cons m ms =>
        have hlen2 := length_filter_key_le_one (·.id) s.messages hmsgs f.message_id
        rw [hmm] at hlen2
        have hms : ms = [] := by
          cases ms with
          | nil => rfl
          | cons _ _ => simp at hlen2
        subst hms
        have hmid : m.id = f.message_id := by
          have := (List.mem_filter.mp (hmm ▸ List.mem_cons_self m [])).2
          simpa using this
        rw [List.flatMap_cons, List.flatMap_nil, List.append_nil]
        by_cases hok : sourceOk src c && dateOkMsg dFrom dTo m
        · rw [if_pos hok]
          simp [hmid]
        · rw [if_neg hok]
          simp
  · rw [if_neg hm]
    simp

theorem candidate_mids_nodup (s : Store) (qtoks : List Str) (rawLower : Str)
    (src : Option Str) (dFrom dTo : Option Int)
    (hconvs : (s.conversations.map (·.id)).Nodup)
    (hmsgs : (s.messages.map (·.id)).Nodup)
    (hpairs : (s.messages_fts.map (·.message_id)).Nodup) (k : Str) :
    (((candidateRows s qtoks rawLower src dFrom dTo).filter
      (fun r => r.conversation_id == k)).map (·.message_id)).Nodup := by
  have hsub : ((candidateRows s qtoks rawLower src dFrom dTo).map (·.message_id)).Sublist
      (s.messages_fts.map (·.message_id)) := by
    unfold candidateRows
    exact flatMap_map_sublist s.messages_fts _ (fun r : RankedRow => r.message_id)
      (fun f : FtsRow => f.message_id)
      (fun f _ => candidate_body_mids s qtoks rawLower src dFrom dTo hconvs hmsgs f)
  have hnd : ((candidateRows s qtoks rawLower src dFrom dTo).map (·.message_id)).Nodup :=
    List.Nodup.sublist hsub hpairs
  exact List.Nodup.sublist ((List.filter_sublist _).map _) hnd

theorem pairwise_insertSorted {α : Type} (le : α → α → Bool)
    (htot : ∀ a b, le a b = true ∨ le b a = true)
    (htrans : ∀ a b c, le a b = true → le b c = true → le a c = true)
    (a : α) (l : List α) (h : l.Pairwise (fun x y => le x y = true)) :
    (insertSorted le a l).Pairwise (fun x y => le x y = true) := by
  induction l with
  | nil => simp [insertSorted]
  | cons b bs ih =>
    rw [List.pairwise_cons] at h
    rw [insertSorted]
    by_cases hab : le a b = true
    · rw [if_pos hab]
      refine List.pairwise_cons.mpr ⟨?_, List.pairwise_cons.mpr h⟩
      intro x hx
      rcases List.mem_cons.mp hx with rfl | hx'
      · exact hab
      · exact htrans a b x hab (h.1 x hx')
    · rw [if_neg hab]
      refine List.pairwise_cons.mpr ⟨?_, ih h.2⟩
      intro x hx
      rw [(insertSorted_perm le a bs).mem_iff, List.mem_cons] at hx
      rcases hx with rfl | hx'
      · rcases htot x b with h1 | h1
        · exact absurd h1 hab
        · exact h1
      · exact h.1 x hx'

theorem pairwise_sortByLE {α : Type} (le : α → α → Bool)
    (htot : ∀ a b, le a b = true ∨ le b a = true)
    (htrans : ∀ a b c, le a b = true → le b c = true → le a c = true)
    (l : List α) :
    (sortByLE le l).Pairwise (fun x y => le x y = true) := by
  induction l with
  | nil => simp [sortByLE]
  | cons a rest ih => exact pairwise_insertSorted le htot htrans a _ ih

theorem relevanceLE_total (a b : GroupRow) :
    groupLE .relevance a b = true ∨ groupLE .relevance b a = true := by
  simp only [groupLE, decide_eq_true_eq]
  omega

theorem relevanceLE_trans (a b c : GroupRow) (h1 : groupLE .relevance a b = true)
    (h2 : groupLE .relevance b c = true) : groupLE .relevance a c = true := by
  simp only [groupLE, decide_eq_true_eq] at h1 h2 ⊢
  omega

theorem pairwise_rank_of_relevance (G : List GroupRow) (off lim : Nat)
    (F : GroupRow → SearchResultRow) (hF : ∀ g, (F g).rank = g.rank) :
    ((((sortByLE (groupLE .relevance) G).drop off).take lim).map F).Pairwise
      (fun a b : SearchResultRow => a.rank ≤ b.rank) := by
  have hpw : (sortByLE (groupLE .relevance) G).Pairwise
      (fun x y => groupLE .relevance x y = true) :=
    pairwise_sortByLE _ relevanceLE_total relevanceLE_trans G
  have hpage : (((sortByLE (groupLE .relevance) G).drop off).take lim).Pairwise
      (fun x y => groupLE .relevance x y = true) :=
    hpw.sublist ((List.take_sublist _ _).trans (List.drop_sublist _ _))
  rw [List.pairwise_map]
  refine hpage.imp ?_
  intro x y hxy
  simp only [groupLE, decide_eq_true_eq] at hxy
  rw [hF x, hF y]
  omega

theorem rank_lt_position {rows : List SearchResultRow}
    (hpw : rows.Pairwise (fun a b => a.rank ≤ b.rank)) :
    ∀ (i j : Nat) (hi : i < rows.length) (hj : j < rows.length),
      (rows.get ⟨i, hi⟩).rank < (rows.get ⟨j, hj⟩).rank → i < j := by
  intro i j hi hj hlt
  by_contra hij
  push_neg at hij
  rcases Nat.lt_or_ge j i with hji | hji
  · have := List.pairwise_iff_get.mp hpw ⟨j, hj⟩ ⟨i, hi⟩ hji
    omega
  · have : i = j := by omega
    subst this
    omega

/-- C4 — Relevance ranking: over a store whose tables respect their
primary keys (conversation and message ids unique, one FTS row per
message id), every grouped result's rank is the negative sum — over that
conversation's matching index rows, whose message ids are pairwise
distinct, i.e. over its distinct matching messages — of the
case-insensitive non-overlapping occurrence count of the raw query in the
message content, plus a fixed `-5` boost exactly when the conversation's
title contains the lowered raw query as a substring.  Consequently a
title-matched conversation has strictly lower rank than a non-matched one
whenever the body occurrence counts differ by less than the boost margin,
and under relevance sort the returned rows are ordered by rank, so the
strictly-lower-ranked conversation appears strictly earlier. -/
theorem search_relevance_ranking (snippetFn : FtsRow → Str) (s : Store) (q : Str)
    (src : Option Str) (dFrom dTo : Option Int) (lim off : Option Int)
    (hconvs : (s.conversations.map (·.id)).Nodup)
    (hmsgs : (s.messages.map (·.id)).Nodup)
    (hpairs : (s.messages_fts.map (·.message_id)).Nodup)
    (hraw : strTrim q ≠ []) (htok : normalizeQuery (strTrim q) ≠ []) :
    (∀ g ∈ searchGroups s (normalizeQuery (strTrim q)) (lowerStr (strTrim q))
        src dFrom dTo,
      g.rank = -(Int.ofNat ((((candidateRows s (normalizeQuery (strTrim q))
          (lowerStr (strTrim q)) src dFrom dTo).filter
          (fun r => r.conversation_id == g.conversation_id)).map
            (·.occurrence_in_message)).sum)) +
        convBoost s (lowerStr (strTrim q)) g.conversation_id) ∧
    (∀ k : Str, (((candidateRows s (normalizeQuery (strTrim q))
        (lowerStr (strTrim q)) src dFrom dTo).filter
        (fun r => r.conversation_id == k)).map (·.message_id)).Nodup) ∧
    (∀ ga ∈ searchGroups s (normalizeQuery (strTrim q)) (lowerStr (strTrim q))
        src dFrom dTo,
      ∀ gb ∈ searchGroups s (normalizeQuery (strTrim q)) (lowerStr (strTrim q))
        src dFrom dTo,
      convBoost s (lowerStr (strTrim q)) ga.conversation_id = -5 →
      convBoost s (lowerStr (strTrim q)) gb.conversation_id = 0 →
      Int.ofNat ((((candidateRows s (normalizeQuery (strTrim q))
          (lowerStr (strTrim q)) src dFrom dTo).filter
          (fun r => r.conversation_id == gb.conversation_id)).map
            (·.occurrence_in_message)).sum) <
        Int.ofNat ((((candidateRows s (normalizeQuery (strTrim q))
          (lowerStr (strTrim q)) src dFrom dTo).filter
          (fun r => r.conversation_id == ga.conversation_id)).map
            (·.occurrence_in_message)).sum) + 5 →
      ga.rank < gb.rank) ∧
    (∀ (i j : Nat)
      (hi : i < (searchMessages snippetFn s q
        ⟨src, dFrom, dTo, lim, off, some .relevance⟩).rows.length)
      (hj : j < (searchMessages snippetFn s q
        ⟨src, dFrom, dTo, lim, off, some .relevance⟩).rows.length),
      ((searchMessages snippetFn s q
        ⟨src, dFrom, dTo, lim, off, some .relevance⟩).rows.get ⟨i, hi⟩).rank <
        ((searchMessages snippetFn s q
          ⟨src, dFrom, dTo, lim, off, some .relevance⟩).rows.get ⟨j, hj⟩).rank →
      i < j) := by
  refine ⟨searchGroups_rank s _ _ src dFrom dTo hconvs,
    fun k => candidate_mids_nodup s _ _ src dFrom dTo hconvs hmsgs hpairs k,
    ?_, ?_⟩
  · intro ga hga gb hgb hba hbb hmargin
    have ha := searchGroups_rank s _ _ src dFrom dTo hconvs ga hga
    have hb := searchGroups_rank s _ _ src dFrom dTo hconvs gb hgb
    rw [ha, hb, hba, hbb]
    omega
  · apply rank_lt_position
    rw [searchMessages_eq snippetFn s q ⟨src, dFrom, dTo, lim, off, some .relevance⟩
      hraw htok]
    dsimp only
    exact pairwise_rank_of_relevance _ _ _ _ (fun g => rfl)

/-- Witness for C4: the sample store extended with a body-only
conversation; the query `"budget"` matches the first conversation's
title. -/
theorem search_relevance_ranking_witness :
    ((sampleStore2.conversations.map (·.id)).Nodup ∧
      (sampleStore2.messages.map (·.id)).Nodup ∧
      (sampleStore2.messages_fts.map (·.message_id)).Nodup ∧
      strTrim "budget".toList ≠ [] ∧
      normalizeQuery (strTrim "budget".toList) ≠ []) ∧
    (∀ g ∈ searchGroups sampleStore2 (normalizeQuery (strTrim "budget".toList))
        (lowerStr (strTrim "budget".toList)) none none none,
      g.rank = -(Int.ofNat ((((candidateRows sampleStore2
          (normalizeQuery (strTrim "budget".toList))
          (lowerStr (strTrim "budget".toList)) none none none).filter
          (fun r => r.conversation_id == g.conversation_id)).map
            (·.occurrence_in_message)).sum)) +
        convBoost sampleStore2 (lowerStr (strTrim "budget".toList))
          g.conversation_id) :=
  ⟨⟨by decide, by decide, by decide, by decide, by decide⟩,
    (search_relevance_ranking contentSnippet sampleStore2 "budget".toList
      none none none none none (by decide) (by decide) (by decide)
      (by decide) (by decide)).1⟩

/-- Witness for the amended C5 at a whitespace-only query over the
sample store. -/
theorem searchPage_empty_query_browse_witness :
    strTrim "   ".toList = [] ∧
      (searchMessages contentSnippet sampleStore "   ".toList noOpts = ⟨[], 0, 0⟩ ∧
        searchPageLoad contentSnippet sampleStore "   ".toList none none none none =
          ⟨((getAllConversationsForSearch sampleStore
                ⟨none, none, none, some 50, some 0⟩).1).map convertToSearchRow,
            (getAllConversationsForSearch sampleStore
              ⟨none, none, none, some 50, some 0⟩).2, 0⟩) :=
  ⟨by decide, searchPage_empty_query_browse contentSnippet sampleStore "   ".toList
    noOpts none none none none (by decide)⟩

end Memex
